import Mathlib

set_option maxRecDepth 4000

/-!
Shallow embedding of the `graph-entity` repository.

`GraphManager` (src/src/GraphManager.ts) keeps five pieces of state: two
adjacency indices (`sourceLinkIndex`, `targetLinkIndex`, JS `Map<Entity, Set<Entity>>`),
a type index (`Map<nodeType, Set<Entity>>`), the registry (`Map<string, Entity>`)
and the listener registry (`Map<Entity, callback>`).  JS `Map`s are modelled as
insertion-ordered association lists, JS `Set`s as duplicate-free insertion-ordered
lists, and JS object identity as a `ref` tag on `Node` (two distinct objects may
share a `nodeId`).  Events emitted through the `EventEmitter` are collected in an
ordered list.  The debounced `EventNode` (src/unnamed/part_001) is modelled as an
explicit timer state machine over virtual time.
-/

namespace GraphEntity

/-- A graph entity node.  `ref` models JavaScript object identity, `nodeId` the
stable string id (`getNodeId()`), `nodeType` the type tag, `props` the property
snapshot returned by `getNodeProps()`, and `hasListener` the
`'addListener' in node` capability probe. -/
structure Node where
  ref : Nat
  nodeId : String
  nodeType : Nat
  props : Nat
  hasListener : Bool
deriving DecidableEq, Repr

/-- Lookup in an insertion-ordered association list (JS `Map.get`). -/
def alistGet {α β : Type} [DecidableEq α] : List (α × β) → α → Option β
  | [], _ => none
  | (k, v) :: t, k' => if k = k' then some v else alistGet t k'

/-- JS `Map.set`: update the existing entry in place, else append. -/
def alistSet {α β : Type} [DecidableEq α] : List (α × β) → α → β → List (α × β)
  | [], k, v => [(k, v)]
  | (k0, v0) :: t, k, v => if k0 = k then (k0, v) :: t else (k0, v0) :: alistSet t k v

/-- JS `Map.delete`: remove the entry for a key. -/
def alistDelete {α β : Type} [DecidableEq α] : List (α × β) → α → List (α × β)
  | [], _ => []
  | (k0, v0) :: t, k => if k0 = k then t else (k0, v0) :: alistDelete t k

/-- JS `Set.add`: append if absent. -/
def setAdd {α : Type} [DecidableEq α] (l : List α) (x : α) : List α :=
  if x ∈ l then l else l ++ [x]

/-- The events a `GraphManager` emits. -/
inductive GEvent where
  | nodeUpdate (n : Node)
  | nodeRemove (n : Node)
  | edgeAdd (source target : Node)
  | edgeRemove (source target : Node)
  | graphUpdate
deriving DecidableEq, Repr

/-- The five indices of a `GraphManager`.  `eventCallbacks` keeps only the keys of
the JS `Map<Entity, () => void>` (the callback closures are behaviourally inert). -/
structure GState where
  sourceLinkIndex : List (Node × List Node)
  targetLinkIndex : List (Node × List Node)
  nodeTypeIndex : List (Nat × List Node)
  nodes : List (String × Node)
  eventCallbacks : List Node
deriving DecidableEq, Repr

/-- A freshly constructed `GraphManager`. -/
def emptyGraph : GState :=
  { sourceLinkIndex := [], targetLinkIndex := [], nodeTypeIndex := [], nodes := [],
    eventCallbacks := [] }

/-- `getSources(node)`: the set of parents, empty when no index entry exists. -/
def getSources (g : GState) (node : Node) : List Node :=
  (alistGet g.sourceLinkIndex node).getD []

/-- `getTargets(node)`: the set of children, empty when no index entry exists. -/
def getTargets (g : GState) (node : Node) : List Node :=
  (alistGet g.targetLinkIndex node).getD []

/-- `getNodeById(id)`. -/
def getNodeById (g : GState) (id : String) : Option Node :=
  alistGet g.nodes id

/-- `getNodesByType(nodeType)`. -/
def getNodesByType (g : GState) (t : Nat) : List Node :=
  (alistGet g.nodeTypeIndex t).getD []

/-- `getSourceEdgeCount()`: sum of the sizes of all source-adjacency sets. -/
def getSourceEdgeCount (g : GState) : Nat :=
  (g.sourceLinkIndex.map (fun e => e.2.length)).sum

/-- `getTargetEdgeCount()`: sum of the sizes of all target-adjacency sets. -/
def getTargetEdgeCount (g : GState) : Nat :=
  (g.targetLinkIndex.map (fun e => e.2.length)).sum

/-- `addSourceLink(source, parent)`: record `source` in the source-adjacency set of
`parent` (creating the set on demand); `true` iff the link was newly added. -/
def addSourceLink (g : GState) (source parent : Node) : Bool × GState :=
  match alistGet g.sourceLinkIndex parent with
  | none =>
    (true, { g with sourceLinkIndex := alistSet g.sourceLinkIndex parent [source] })
  | some sourceLink =>
    if source ∈ sourceLink then (false, g)
    else
      (true, { g with
        sourceLinkIndex := alistSet g.sourceLinkIndex parent (sourceLink ++ [source]) })

/-- `removeSourceLink(source, parent)`; `true` iff the link existed. -/
def removeSourceLink (g : GState) (source parent : Node) : Bool × GState :=
  match alistGet g.sourceLinkIndex parent with
  | none => (false, g)
  | some sourceLink =>
    if source ∈ sourceLink then
      (true, { g with
        sourceLinkIndex := alistSet g.sourceLinkIndex parent (sourceLink.erase source) })
    else (false, g)

/-- `addTargetLink(parent, child)`. -/
def addTargetLink (g : GState) (parent child : Node) : Bool × GState :=
  match alistGet g.targetLinkIndex parent with
  | none =>
    (true, { g with targetLinkIndex := alistSet g.targetLinkIndex parent [child] })
  | some targetLink =>
    if child ∈ targetLink then (false, g)
    else
      (true, { g with
        targetLinkIndex := alistSet g.targetLinkIndex parent (targetLink ++ [child]) })

/-- `removeTargetLink(parent, child)`. -/
def removeTargetLink (g : GState) (parent child : Node) : Bool × GState :=
  match alistGet g.targetLinkIndex parent with
  | none => (false, g)
  | some targetLink =>
    if child ∈ targetLink then
      (true, { g with
        targetLinkIndex := alistSet g.targetLinkIndex parent (targetLink.erase child) })
    else (false, g)

/-- `removeEdge(source, target, emitGraphUpdate)`: drop the link from both
adjacency indices; emit `edgeRemove` (and optionally `graphUpdate`) iff it existed. -/
def removeEdge (g : GState) (source target : Node) (emitGraphUpdate : Bool) :
    Bool × GState × List GEvent :=
  let r1 := removeSourceLink g source target
  let r2 := removeTargetLink r1.2 source target
  let isRemoved := r1.1 || r2.1
  if isRemoved then
    (true, r2.2,
      GEvent.edgeRemove source target :: if emitGraphUpdate then [GEvent.graphUpdate] else [])
  else (false, r2.2, [])

/-- The `for`-loops of `handleRemoveNode`: run `step` over a snapshot of the
iterated set, threading the state and accumulating emitted events.  (Iterating a
live JS `Set` while each step deletes exactly the element currently visited is
observably identical to iterating a snapshot.) -/
def edgeFold (step : GState → Node → Bool × GState × List GEvent) :
    List Node → GState × List GEvent → GState × List GEvent
  | [], acc => acc
  | x :: xs, acc =>
    edgeFold step xs ((step acc.1 x).2.1, acc.2 ++ (step acc.1 x).2.2)

/-- `handleRemoveNode(node, emitNodeRemove, emitGraphUpdate)` from the source:
tear down every edge touching `node` through `removeEdge` (which emits with its
default `emitGraphUpdate = true`), drop `node` from its type bucket, then delete
the registry entry *by id*; on success also detach the forwarding listener and
optionally emit `nodeRemove`/`graphUpdate`. -/
def handleRemoveNode (g : GState) (node : Node) (emitNodeRemove emitGraphUpdate : Bool) :
    Bool × GState × List GEvent :=
  let p1 := edgeFold (fun s source => removeEdge s source node true) (getSources g node)
    (g, [])
  let p2 := edgeFold (fun s target => removeEdge s node target true) (getTargets p1.1 node)
    p1
  let g2 := p2.1
  let g3 := match alistGet g2.nodeTypeIndex node.nodeType with
    | some ts =>
      { g2 with nodeTypeIndex := alistSet g2.nodeTypeIndex node.nodeType (ts.erase node) }
    | none => g2
  match alistGet g3.nodes node.nodeId with
  | some _ =>
    let g4 := { g3 with nodes := alistDelete g3.nodes node.nodeId }
    let g5 := { g4 with eventCallbacks := g4.eventCallbacks.erase node }
    (true, g5,
      p2.2 ++ (if emitNodeRemove then [GEvent.nodeRemove node] else [])
        ++ (if emitGraphUpdate then [GEvent.graphUpdate] else []))
  | none => (false, g3, p2.2)

/-- The snapshot of `getTargets(node)` seen by the second loop of
`handleRemoveNode`: the first loop already removed a self-loop from it, if any. -/
def secondLoopTargets (g : GState) (node : Node) : List Node :=
  if node ∈ getSources g node then (getTargets g node).erase node else getTargets g node

/-- The registration tail of `handleAddNode` (the straight-line code after the
optional teardown): `nodeTypeSet.add(node)`, `nodes.set(id, node)`, emit
`nodeUpdate` (and optionally `graphUpdate`), and attach the forwarding listener
when the node exposes `addListener`.  `prevEvents` are the events emitted by an
earlier teardown in the same call. -/
def registerNode (g1 : GState) (node : Node) (emitGraphUpdate : Bool)
    (prevEvents : List GEvent) : Bool × GState × List GEvent :=
  let ts1 := (alistGet g1.nodeTypeIndex node.nodeType).getD []
  let g2 := { g1 with
    nodeTypeIndex := alistSet g1.nodeTypeIndex node.nodeType (setAdd ts1 node),
    nodes := alistSet g1.nodes node.nodeId node }
  let g3 := if node.hasListener then
      { g2 with eventCallbacks := setAdd g2.eventCallbacks node }
    else g2
  (true, g3,
    prevEvents ++ GEvent.nodeUpdate node ::
      (if emitGraphUpdate then [GEvent.graphUpdate] else []))

/-- `handleAddNode(node, emitGraphUpdate)` from the source: ensure a type bucket
exists, no-op iff the exact same object is already registered under its id; a
*different* object under the same id is torn down first without a `nodeRemove`
event; then the shared registration tail (`registerNode`) runs. -/
def handleAddNode (g : GState) (node : Node) (emitGraphUpdate : Bool) :
    Bool × GState × List GEvent :=
  let g0 := match alistGet g.nodeTypeIndex node.nodeType with
    | none => { g with nodeTypeIndex := alistSet g.nodeTypeIndex node.nodeType [] }
    | some _ => g
  match alistGet g0.nodes node.nodeId with
  | some currentNode =>
    if currentNode = node then (false, g0, [])
    else
      let ts := (alistGet g0.nodeTypeIndex node.nodeType).getD []
      let ga := { g0 with
        nodeTypeIndex := alistSet g0.nodeTypeIndex node.nodeType (ts.erase currentNode) }
      let r := handleRemoveNode ga currentNode false false
      registerNode r.2.1 node emitGraphUpdate r.2.2
  | none => registerNode g0 node emitGraphUpdate []

/-- `addNode(node, emitGraphUpdate)`. -/
def addNode (g : GState) (node : Node) (emitGraphUpdate : Bool) :
    Bool × GState × List GEvent :=
  handleAddNode g node emitGraphUpdate

/-- `removeNode(node, emitGraphUpdate)`. -/
def removeNode (g : GState) (node : Node) (emitGraphUpdate : Bool) :
    Bool × GState × List GEvent :=
  handleRemoveNode g node true emitGraphUpdate

/-- `addEdge(source, target, emitGraphUpdate)`: register both endpoints, add the
link to both adjacency indices, and emit `edgeAdd` (plus optionally `graphUpdate`)
iff *any* of the four sub-operations reported a change. -/
def addEdge (g : GState) (source target : Node) (emitGraphUpdate : Bool) :
    Bool × GState × List GEvent :=
  let a1 := addNode g source emitGraphUpdate
  let a2 := addNode a1.2.1 target emitGraphUpdate
  let a3 := addSourceLink a2.2.1 source target
  let a4 := addTargetLink a3.2 source target
  let isAdded := a1.1 || a2.1 || a3.1 || a4.1
  if isAdded then
    (true, a4.2,
      a1.2.2 ++ a2.2.2 ++ GEvent.edgeAdd source target ::
        (if emitGraphUpdate then [GEvent.graphUpdate] else []))
  else (false, a4.2, a1.2.2 ++ a2.2.2)

/-- `addEdges(source, target, emitGraphUpdate)`: Cartesian product through
`addEdge` with per-pair `graphUpdate` suppressed, one trailing `graphUpdate` if
anything changed. -/
def addEdges (g : GState) (source target : List Node) (emitGraphUpdate : Bool) :
    Bool × GState × List GEvent :=
  let r := source.foldl
    (fun acc sourceNode => target.foldl
      (fun acc2 targetNode =>
        let e := addEdge acc2.2.1 sourceNode targetNode false
        (acc2.1 || e.1, e.2.1, acc2.2.2 ++ e.2.2)) acc)
    (false, g, [])
  if emitGraphUpdate && r.1 then (r.1, r.2.1, r.2.2 ++ [GEvent.graphUpdate]) else r

/-- `removeEdges(source, target, emitGraphUpdate)`. -/
def removeEdges (g : GState) (source target : List Node) (emitGraphUpdate : Bool) :
    Bool × GState × List GEvent :=
  let r := source.foldl
    (fun acc sourceNode => target.foldl
      (fun acc2 targetNode =>
        let e := removeEdge acc2.2.1 sourceNode targetNode false
        (acc2.1 || e.1, e.2.1, acc2.2.2 ++ e.2.2)) acc)
    (false, g, [])
  if emitGraphUpdate && r.1 then (r.1, r.2.1, r.2.2 ++ [GEvent.graphUpdate]) else r

/-- The id-only tree produced by `getEdgeStructure` (`GraphEdgeStructure` in the
source): `targets`/`sources` are present only when the corresponding expansion
was non-empty. -/
inductive GraphEdgeStructure where
  | mk (id : String) (targets : Option (List GraphEdgeStructure))
      (sources : Option (List GraphEdgeStructure))

def GraphEdgeStructure.id : GraphEdgeStructure → String
  | .mk i _ _ => i

def GraphEdgeStructure.targets : GraphEdgeStructure → Option (List GraphEdgeStructure)
  | .mk _ t _ => t

def GraphEdgeStructure.sources : GraphEdgeStructure → Option (List GraphEdgeStructure)
  | .mk _ _ s => s

/-- The property-bearing tree produced by `getNodeStructure` (`GraphStructure`
in the source). -/
inductive GraphStructure where
  | mk (type : Nat) (id : String) (props : Nat) (targets : Option (List GraphStructure))
      (sources : Option (List GraphStructure))

def GraphStructure.type : GraphStructure → Nat
  | .mk t _ _ _ _ => t

def GraphStructure.id : GraphStructure → String
  | .mk _ i _ _ _ => i

def GraphStructure.props : GraphStructure → Nat
  | .mk _ _ p _ _ => p

def GraphStructure.targets : GraphStructure → Option (List GraphStructure)
  | .mk _ _ _ t _ => t

def GraphStructure.sources : GraphStructure → Option (List GraphStructure)
  | .mk _ _ _ _ s => s

/-- `array.map((x) => recurse(x, seen))` with the single mutable visited set
threaded left to right through the recursive calls. -/
def structListWith {σ : Type} (f : Node → List Node → Option (σ × List Node)) :
    List Node → List Node → Option (List σ × List Node)
  | [], seen => some ([], seen)
  | n :: ns, seen =>
    match f n seen with
    | none => none
    | some (t, seen1) =>
      match structListWith f ns seen1 with
      | none => none
      | some (ts, seen2) => some (t :: ts, seen2)

/-- `handleEdgeStructure(node, seen)`: add `node` to the visited set, filter both
adjacency sets against it, then recurse into the remaining targets first and
sources second, threading the visited set.  `fuel` bounds the recursion depth of
the shallow embedding; the totality theorem shows any `fuel` beyond the number
of distinct nodes is enough. -/
def handleEdgeStructure (g : GState) :
    Nat → Node → List Node → Option (GraphEdgeStructure × List Node)
  | 0, _, _ => none
  | fuel + 1, node, seen =>
    let seen1 := setAdd seen node
    let targetArray := (getTargets g node).filter (fun t => decide (t ∉ seen1))
    let sourceArray := (getSources g node).filter (fun s => decide (s ∉ seen1))
    match structListWith (handleEdgeStructure g fuel) targetArray seen1 with
    | none => none
    | some (ts, seen2) =>
      match structListWith (handleEdgeStructure g fuel) sourceArray seen2 with
      | none => none
      | some (ss, seen3) =>
        some (GraphEdgeStructure.mk node.nodeId
          (if targetArray.length > 0 then some ts else none)
          (if sourceArray.length > 0 then some ss else none), seen3)

/-- `getEdgeStructure(node)`. -/
def getEdgeStructure (g : GState) (fuel : Nat) (node : Node) :
    Option (GraphEdgeStructure × List Node) :=
  handleEdgeStructure g fuel node []

/-- `handleNodeStructure(node, targetDepth, sourceDepth, seen)`: like
`handleEdgeStructure` but carrying `{type, id, props}` and guarded by the two
independent depth budgets (`targetDepth >= 0` / `sourceDepth >= 0`), each
decremented on its own axis during descent. -/
def handleNodeStructure (g : GState) :
    Nat → Int → Int → Node → List Node → Option (GraphStructure × List Node)
  | 0, _, _, _, _ => none
  | fuel + 1, targetDepth, sourceDepth, node, seen =>
    let seen1 := setAdd seen node
    let targetArray := (getTargets g node).filter (fun t => decide (t ∉ seen1))
    let sourceArray := (getSources g node).filter (fun s => decide (s ∉ seen1))
    match (if 0 ≤ targetDepth ∧ targetArray.length > 0 then
        match structListWith (handleNodeStructure g fuel (targetDepth - 1) sourceDepth)
            targetArray seen1 with
        | none => none
        | some (ts, seen2) => some (some ts, seen2)
      else some (none, seen1)) with
    | none => none
    | some (tOpt, seen2) =>
      match (if 0 ≤ sourceDepth ∧ sourceArray.length > 0 then
          match structListWith (handleNodeStructure g fuel targetDepth (sourceDepth - 1))
              sourceArray seen2 with
          | none => none
          | some (ss, seen3) => some (some ss, seen3)
        else some (none, seen2)) with
      | none => none
      | some (sOpt, seen3) =>
        some (GraphStructure.mk node.nodeType node.nodeId node.props tOpt sOpt, seen3)

/-- `getNodeStructure(node, targetDepth, sourceDepth)`. -/
def getNodeStructure (g : GState) (fuel : Nat) (node : Node)
    (targetDepth sourceDepth : Int) : Option (GraphStructure × List Node) :=
  handleNodeStructure g fuel targetDepth sourceDepth node []

mutual

/-- All ids occurring in an edge-structure tree (root included). -/
def structIds : GraphEdgeStructure → List String
  | .mk i ts ss => i :: (structIdsOpt ts ++ structIdsOpt ss)

/-- All ids under an optional children array. -/
def structIdsOpt : Option (List GraphEdgeStructure) → List String
  | none => []
  | some l => structIdsList l

/-- All ids in a list of edge-structure trees. -/
def structIdsList : List GraphEdgeStructure → List String
  | [] => []
  | t :: ts => structIds t ++ structIdsList ts

end

/-- The ids of all *proper* descendants of an edge-structure tree (root excluded). -/
def properIds (t : GraphEdgeStructure) : List String :=
  structIdsOpt t.targets ++ structIdsOpt t.sources

/-- Every node object mentioned anywhere in the two adjacency indices (keys and
set elements); the children examined by the structure builders all come from
this list. -/
def mentionedNodes (g : GState) : List Node :=
  g.targetLinkIndex.foldr (fun e acc => e.1 :: (e.2 ++ acc))
    (g.sourceLinkIndex.foldr (fun e acc => e.1 :: (e.2 ++ acc)) [])

/-- State of the debounced `EventNode` (src/unnamed/part_001) over virtual time:
the stored `nodeProps`, the pending `setTimeout` handle modelled as the absolute
deadline at which it fires, and the log of emitted `nodeUpdated` notifications as
`(fire time, props visible at fire time)` pairs. -/
structure EventNodeState where
  nodeProps : Nat
  emitTimeout : Option Nat
  emitted : List (Nat × Nat)
deriving DecidableEq, Repr

/-- A pending timer whose deadline has passed fires: it emits `nodeUpdated`
(observing the currently stored props) and clears the handle. -/
def fireDue (s : EventNodeState) (now : Nat) : EventNodeState :=
  match s.emitTimeout with
  | some d =>
    if d ≤ now then
      { nodeProps := s.nodeProps, emitTimeout := none, emitted := s.emitted ++ [(d, s.nodeProps)] }
    else s
  | none => s

/-- `setProps(props, emitDelay)` invoked at virtual time `now`: any timer that
was due fires first, the new props are stored immediately, and
`this.emitTimeout ??= setTimeout(..., emitDelay)` arms a timer only when none is
pending. -/
def setProps (s : EventNodeState) (now : Nat) (props emitDelay : Nat) : EventNodeState :=
  let s1 := fireDue s now
  let s2 := { s1 with nodeProps := props }
  match s2.emitTimeout with
  | none => { s2 with emitTimeout := some (now + emitDelay) }
  | some _ => s2

/-- Run a time-ordered list of `(time, props, delay)` calls to `setProps`. -/
def runSetProps (s : EventNodeState) (calls : List (Nat × Nat × Nat)) : EventNodeState :=
  calls.foldl (fun acc c => setProps acc c.1 c.2.1 c.2.2) s

/-- Let the last pending timer (if any) fire. -/
def drainTimer (s : EventNodeState) : EventNodeState :=
  match s.emitTimeout with
  | some d =>
    { nodeProps := s.nodeProps, emitTimeout := none, emitted := s.emitted ++ [(d, s.nodeProps)] }
  | none => s

/-- Every adjacency value list is duplicate-free (JS `Set`s hold no duplicates). -/
def SetsNodup (idx : List (Node × List Node)) : Prop :=
  ∀ e ∈ idx, e.2.Nodup

/-- Every type-index bucket is duplicate-free. -/
def TypeSetsNodup (idx : List (Nat × List Node)) : Prop :=
  ∀ e ∈ idx, e.2.Nodup

/-- The two adjacency maps are exact inverses: an edge `a → b` is recorded in
the target set of `a` iff it is recorded in the source set of `b`. -/
def EdgeSym (g : GState) : Prop :=
  ∀ a b : Node, b ∈ getTargets g a ↔ a ∈ getSources g b

/-- Every registered node has a (possibly empty) bucket in the type index. -/
def TypeInv (g : GState) : Prop :=
  ∀ e ∈ g.nodes, (alistGet g.nodeTypeIndex e.2.nodeType).isSome = true

/-- Every registry entry is keyed by its node's own id. -/
def RegIdInv (g : GState) : Prop :=
  ∀ e ∈ g.nodes, e.2.nodeId = e.1

/-- The state invariants maintained by every mutation operation. -/
def Inv (g : GState) : Prop :=
  SetsNodup g.sourceLinkIndex ∧ SetsNodup g.targetLinkIndex ∧
    TypeSetsNodup g.nodeTypeIndex ∧ EdgeSym g ∧
    getSourceEdgeCount g = getTargetEdgeCount g ∧ TypeInv g ∧
    g.eventCallbacks.Nodup ∧ RegIdInv g

/-- Graph states reachable from a freshly constructed `GraphManager` by the
public mutation operations. -/
inductive Reachable : GState → Prop where
  | empty : Reachable emptyGraph
  | addNode (g : GState) (n : Node) (b : Bool) :
      Reachable g → Reachable (addNode g n b).2.1
  | removeNode (g : GState) (n : Node) (b : Bool) :
      Reachable g → Reachable (removeNode g n b).2.1
  | addEdge (g : GState) (s t : Node) (b : Bool) :
      Reachable g → Reachable (addEdge g s t b).2.1
  | removeEdge (g : GState) (s t : Node) (b : Bool) :
      Reachable g → Reachable (removeEdge g s t b).2.1
  | addEdges (g : GState) (ss ts : List Node) (b : Bool) :
      Reachable g → Reachable (addEdges g ss ts b).2.1
  | removeEdges (g : GState) (ss ts : List Node) (b : Bool) :
      Reachable g → Reachable (removeEdges g ss ts b).2.1

/-- Sum of the set sizes of an adjacency index (the `reduce` in the two
edge-count queries). -/
def sumLens (l : List (Node × List Node)) : Nat :=
  (l.map (fun e => e.2.length)).sum

/-! Concrete nodes and states used by witnesses and counterexamples. -/

def nodeA : Node := ⟨0, "a", 0, 0, false⟩
def nodeB : Node := ⟨1, "b", 1, 0, false⟩
def nodeC : Node := ⟨2, "c", 0, 0, false⟩
def nodeN : Node := ⟨5, "n", 2, 7, false⟩
/-- A different object sharing `nodeA`'s id. -/
def nodeA2 : Node := ⟨3, "a", 0, 0, false⟩

/-- The graph `a → b`. -/
def gAB : GState := (addEdge emptyGraph nodeA nodeB true).2.1
/-- Only `nodeA` registered. -/
def gOnlyA : GState := (addNode emptyGraph nodeA true).2.1
/-- `a → b` after `removeNode(nodeA2)`: `nodeA` is de-registered but its edge
and type-index entries are stale. -/
def gStale : GState := (removeNode gAB nodeA2 true).2.1
/-- The 3-cycle `a → b → c → a`. -/
def gCycle : GState :=
  (addEdge (addEdge (addEdge emptyGraph nodeA nodeB true).2.1 nodeB nodeC true).2.1
    nodeC nodeA true).2.1
/-- The chain `a → n → c` (so `n` has one incoming and one outgoing edge). -/
def gChain : GState :=
  (addEdge (addEdge emptyGraph nodeA nodeN true).2.1 nodeN nodeC true).2.1
/-- The self-loop `a → a`. -/
def gLoop : GState := (addEdge emptyGraph nodeA nodeA true).2.1

/-- Recognizer for `edgeRemove` events (used to count them). -/
def isEdgeRemove : GEvent → Bool
  | GEvent.edgeRemove _ _ => true
  | _ => false

/-! ### Association-list and set lemmas -/

theorem alistGet_alistSet_self {α β : Type} [DecidableEq α] (l : List (α × β)) (k : α)
    (v : β) : alistGet (alistSet l k v) k = some v := by
  induction l with
  | nil => simp [alistSet, alistGet]
  | cons e t ih =>
    obtain ⟨k0, v0⟩ := e
    by_cases h : k0 = k <;> simp [alistSet, alistGet, h, ih]

theorem alistGet_alistSet_ne {α β : Type} [DecidableEq α] (l : List (α × β)) {k k' : α}
    (v : β) (h : k ≠ k') : alistGet (alistSet l k v) k' = alistGet l k' := by
  induction l with
  | nil => simp [alistSet, alistGet, h]
  | cons e t ih =>
    obtain ⟨k0, v0⟩ := e
    by_cases h0 : k0 = k
    · subst h0
      simp [alistSet, alistGet, h]
    · simp [alistSet, alistGet, h0, ih]

theorem alistGet_mem {α β : Type} [DecidableEq α] {l : List (α × β)} {k : α} {v : β}
    (h : alistGet l k = some v) : (k, v) ∈ l := by
  induction l with
  | nil => simp [alistGet] at h
  | cons e t ih =>
    obtain ⟨k0, v0⟩ := e
    by_cases h0 : k0 = k
    · subst h0
      simp [alistGet] at h
      simp [h]
    · simp [alistGet, h0] at h
      simp [ih h]

theorem mem_alistSet {α β : Type} [DecidableEq α] {l : List (α × β)} {k : α} {v : β}
    {e : α × β} (h : e ∈ alistSet l k v) : e ∈ l ∨ e = (k, v) := by
  induction l with
  | nil => simp [alistSet] at h; simp [h]
  | cons e0 t ih =>
    obtain ⟨k0, v0⟩ := e0
    by_cases h0 : k0 = k
    · simp [alistSet, h0] at h
      rcases h with h | h
      · subst h0; right; simp [h]
      · left; simp [h]
    · simp [alistSet, h0] at h
      rcases h with h | h
      · left; simp [h]
      · rcases ih h with h' | h'
        · left; simp [h']
        · right; exact h'

theorem alistGet_alistDelete_same_keys {α β : Type} [DecidableEq α] (l : List (α × β))
    (k k' : α) (h : k ≠ k') : alistGet (alistDelete l k) k' = alistGet l k' := by
  induction l with
  | nil => simp [alistDelete]
  | cons e t ih =>
    obtain ⟨k0, v0⟩ := e
    by_cases h0 : k0 = k
    · subst h0
      simp [alistDelete, alistGet, h]
    · simp [alistDelete, alistGet, h0, ih]

theorem sumLens_alistSet_of_get_none (l : List (Node × List Node)) (k : Node)
    (v : List Node) (h : alistGet l k = none) :
    sumLens (alistSet l k v) = sumLens l + v.length := by
  induction l with
  | nil => simp [alistSet, sumLens]
  | cons e t ih =>
    obtain ⟨k0, v0⟩ := e
    by_cases h0 : k0 = k
    · simp [alistGet, h0] at h
    · simp [alistGet, h0] at h
      have ih' := ih h
      simp [alistSet, h0, sumLens] at ih' ⊢
      omega

theorem sumLens_alistSet_of_get_some (l : List (Node × List Node)) (k : Node)
    (v w : List Node) (h : alistGet l k = some w) :
    sumLens (alistSet l k v) + w.length = sumLens l + v.length := by
  induction l with
  | nil => simp [alistGet] at h
  | cons e t ih =>
    obtain ⟨k0, v0⟩ := e
    by_cases h0 : k0 = k
    · simp [alistGet, h0] at h
      subst h
      simp [alistSet, h0, sumLens]
      omega
    · simp [alistGet, h0] at h
      have ih' := ih h
      simp [alistSet, h0, sumLens] at ih' ⊢
      omega

theorem mem_setAdd {α : Type} [DecidableEq α] {l : List α} {x y : α} :
    x ∈ setAdd l y ↔ x ∈ l ∨ x = y := by
  unfold setAdd
  split
  · constructor
    · intro h; exact Or.inl h
    · rintro (h | h)
      · exact h
      · subst h; assumption
  · simp

theorem setAdd_nodup {α : Type} [DecidableEq α] {l : List α} {x : α} (h : l.Nodup) :
    (setAdd l x).Nodup := by
  unfold setAdd
  split
  · exact h
  · rename_i hx
    simp [List.nodup_append, h]
    exact hx

/-! ### Link-operation characterizations -/

theorem getSourceEdgeCount_eq (g : GState) : getSourceEdgeCount g = sumLens g.sourceLinkIndex :=
  rfl

theorem getTargetEdgeCount_eq (g : GState) : getTargetEdgeCount g = sumLens g.targetLinkIndex :=
  rfl

theorem addSourceLink_rest (g : GState) (s p : Node) :
    (addSourceLink g s p).2.targetLinkIndex = g.targetLinkIndex ∧
    (addSourceLink g s p).2.nodeTypeIndex = g.nodeTypeIndex ∧
    (addSourceLink g s p).2.nodes = g.nodes ∧
    (addSourceLink g s p).2.eventCallbacks = g.eventCallbacks := by
  unfold addSourceLink
  cases alistGet g.sourceLinkIndex p with
  | none => exact ⟨rfl, rfl, rfl, rfl⟩
  | some sl =>
    dsimp only
    split <;> exact ⟨rfl, rfl, rfl, rfl⟩

theorem addTargetLink_rest (g : GState) (p c : Node) :
    (addTargetLink g p c).2.sourceLinkIndex = g.sourceLinkIndex ∧
    (addTargetLink g p c).2.nodeTypeIndex = g.nodeTypeIndex ∧
    (addTargetLink g p c).2.nodes = g.nodes ∧
    (addTargetLink g p c).2.eventCallbacks = g.eventCallbacks := by
  unfold addTargetLink
  cases alistGet g.targetLinkIndex p with
  | none => exact ⟨rfl, rfl, rfl, rfl⟩
  | some tl =>
    dsimp only
    split <;> exact ⟨rfl, rfl, rfl, rfl⟩

theorem removeSourceLink_rest (g : GState) (s p : Node) :
    (removeSourceLink g s p).2.targetLinkIndex = g.targetLinkIndex ∧
    (removeSourceLink g s p).2.nodeTypeIndex = g.nodeTypeIndex ∧
    (removeSourceLink g s p).2.nodes = g.nodes ∧
    (removeSourceLink g s p).2.eventCallbacks = g.eventCallbacks := by
  unfold removeSourceLink
  cases alistGet g.sourceLinkIndex p with
  | none => exact ⟨rfl, rfl, rfl, rfl⟩
  | some sl =>
    dsimp only
    split <;> exact ⟨rfl, rfl, rfl, rfl⟩

theorem removeTargetLink_rest (g : GState) (p c : Node) :
    (removeTargetLink g p c).2.sourceLinkIndex = g.sourceLinkIndex ∧
    (removeTargetLink g p c).2.nodeTypeIndex = g.nodeTypeIndex ∧
    (removeTargetLink g p c).2.nodes = g.nodes ∧
    (removeTargetLink g p c).2.eventCallbacks = g.eventCallbacks := by
  unfold removeTargetLink
  cases alistGet g.targetLinkIndex p with
  | none => exact ⟨rfl, rfl, rfl, rfl⟩
  | some tl =>
    dsimp only
    split <;> exact ⟨rfl, rfl, rfl, rfl⟩

theorem addSourceLink_fst (g : GState) (s p : Node) :
    (addSourceLink g s p).1 = decide (s ∉ getSources g p) := by
  unfold addSourceLink getSources
  cases alistGet g.sourceLinkIndex p with
  | none => simp
  | some sl =>
    dsimp only
    split <;> rename_i hmem <;> simp [hmem]

theorem removeSourceLink_fst (g : GState) (s p : Node) :
    (removeSourceLink g s p).1 = decide (s ∈ getSources g p) := by
  unfold removeSourceLink getSources
  cases alistGet g.sourceLinkIndex p with
  | none => simp
  | some sl =>
    dsimp only
    split <;> rename_i hmem <;> simp [hmem]

theorem addTargetLink_fst (g : GState) (p c : Node) :
    (addTargetLink g p c).1 = decide (c ∉ getTargets g p) := by
  unfold addTargetLink getTargets
  cases alistGet g.targetLinkIndex p with
  | none => simp
  | some tl =>
    dsimp only
    split <;> rename_i hmem <;> simp [hmem]

theorem removeTargetLink_fst (g : GState) (p c : Node) :
    (removeTargetLink g p c).1 = decide (c ∈ getTargets g p) := by
  unfold removeTargetLink getTargets
  cases alistGet g.targetLinkIndex p with
  | none => simp
  | some tl =>
    dsimp only
    split <;> rename_i hmem <;> simp [hmem]

theorem getSources_addSourceLink (g : GState) (s p x : Node) :
    getSources (addSourceLink g s p).2 x =
      if x = p then
        (if s ∈ getSources g p then getSources g p else getSources g p ++ [s])
      else getSources g x := by
  unfold addSourceLink getSources
  cases hg : alistGet g.sourceLinkIndex p with
  | none =>
    dsimp only
    by_cases hx : x = p
    · subst hx
      simp [alistGet_alistSet_self, hg]
    · simp [alistGet_alistSet_ne _ _ (fun h => hx h.symm), hx]
  | some sl =>
    dsimp only
    split <;> rename_i hmem
    · simp [hg, hmem]
      by_cases hx : x = p
      · subst hx
        simp [hg]
      · simp [hx]
    · by_cases hx : x = p
      · subst hx
        simp [alistGet_alistSet_self, hg, hmem]
      · simp [alistGet_alistSet_ne _ _ (fun h => hx h.symm), hx]

theorem getTargets_addTargetLink (g : GState) (p c x : Node) :
    getTargets (addTargetLink g p c).2 x =
      if x = p then
        (if c ∈ getTargets g p then getTargets g p else getTargets g p ++ [c])
      else getTargets g x := by
  unfold addTargetLink getTargets
  cases hg : alistGet g.targetLinkIndex p with
  | none =>
    dsimp only
    by_cases hx : x = p
    · subst hx
      simp [alistGet_alistSet_self, hg]
    · simp [alistGet_alistSet_ne _ _ (fun h => hx h.symm), hx]
  | some tl =>
    dsimp only
    split <;> rename_i hmem
    · simp [hg, hmem]
      by_cases hx : x = p
      · subst hx
        simp [hg]
      · simp [hx]
    · by_cases hx : x = p
      · subst hx
        simp [alistGet_alistSet_self, hg, hmem]
      · simp [alistGet_alistSet_ne _ _ (fun h => hx h.symm), hx]

theorem getSources_removeSourceLink (g : GState) (s p x : Node) :
    getSources (removeSourceLink g s p).2 x =
      if x = p then (getSources g p).erase s else getSources g x := by
  unfold removeSourceLink getSources
  cases hg : alistGet g.sourceLinkIndex p with
  | none =>
    dsimp only
    by_cases hx : x = p
    · subst hx
      simp [hg]
    · simp [hx]
  | some sl =>
    dsimp only
    split <;> rename_i hmem
    · by_cases hx : x = p
      · subst hx
        simp [alistGet_alistSet_self, hg]
      · simp [alistGet_alistSet_ne _ _ (fun h => hx h.symm), hx]
    · by_cases hx : x = p
      · subst hx
        simp [hg, List.erase_of_not_mem hmem]
      · simp [hx]

theorem getTargets_removeTargetLink (g : GState) (p c x : Node) :
    getTargets (removeTargetLink g p c).2 x =
      if x = p then (getTargets g p).erase c else getTargets g x := by
  unfold removeTargetLink getTargets
  cases hg : alistGet g.targetLinkIndex p with
  | none =>
    dsimp only
    by_cases hx : x = p
    · subst hx
      simp [hg]
    · simp [hx]
  | some tl =>
    dsimp only
    split <;> rename_i hmem
    · by_cases hx : x = p
      · subst hx
        simp [alistGet_alistSet_self, hg]
      · simp [alistGet_alistSet_ne _ _ (fun h => hx h.symm), hx]
    · by_cases hx : x = p
      · subst hx
        simp [hg, List.erase_of_not_mem hmem]
      · simp [hx]

theorem getTargets_addSourceLink (g : GState) (s p x : Node) :
    getTargets (addSourceLink g s p).2 x = getTargets g x := by
  unfold getTargets
  rw [(addSourceLink_rest g s p).1]

theorem getSources_addTargetLink (g : GState) (p c x : Node) :
    getSources (addTargetLink g p c).2 x = getSources g x := by
  unfold getSources
  rw [(addTargetLink_rest g p c).1]

theorem getTargets_removeSourceLink (g : GState) (s p x : Node) :
    getTargets (removeSourceLink g s p).2 x = getTargets g x := by
  unfold getTargets
  rw [(removeSourceLink_rest g s p).1]

theorem getSources_removeTargetLink (g : GState) (p c x : Node) :
    getSources (removeTargetLink g p c).2 x = getSources g x := by
  unfold getSources
  rw [(removeTargetLink_rest g p c).1]

theorem addSourceLink_snd_of_not_fst {g : GState} {s p : Node}
    (h : (addSourceLink g s p).1 = false) : (addSourceLink g s p).2 = g := by
  unfold addSourceLink at h ⊢
  cases hg : alistGet g.sourceLinkIndex p with
  | none =>
    rw [hg] at h
    exact Bool.noConfusion h
  | some sl =>
    rw [hg] at h
    dsimp only at h ⊢
    by_cases hmem : s ∈ sl
    · simp [hmem]
    · rw [if_neg hmem] at h
      exact Bool.noConfusion h

theorem addTargetLink_snd_of_not_fst {g : GState} {p c : Node}
    (h : (addTargetLink g p c).1 = false) : (addTargetLink g p c).2 = g := by
  unfold addTargetLink at h ⊢
  cases hg : alistGet g.targetLinkIndex p with
  | none =>
    rw [hg] at h
    exact Bool.noConfusion h
  | some tl =>
    rw [hg] at h
    dsimp only at h ⊢
    by_cases hmem : c ∈ tl
    · simp [hmem]
    · rw [if_neg hmem] at h
      exact Bool.noConfusion h

theorem removeSourceLink_snd_of_not_fst {g : GState} {s p : Node}
    (h : (removeSourceLink g s p).1 = false) : (removeSourceLink g s p).2 = g := by
  unfold removeSourceLink at h ⊢
  cases hg : alistGet g.sourceLinkIndex p with
  | none => rfl
  | some sl =>
    rw [hg] at h
    dsimp only at h ⊢
    by_cases hmem : s ∈ sl
    · rw [if_pos hmem] at h
      exact Bool.noConfusion h
    · simp [hmem]

theorem removeTargetLink_snd_of_not_fst {g : GState} {p c : Node}
    (h : (removeTargetLink g p c).1 = false) : (removeTargetLink g p c).2 = g := by
  unfold removeTargetLink at h ⊢
  cases hg : alistGet g.targetLinkIndex p with
  | none => rfl
  | some tl =>
    rw [hg] at h
    dsimp only at h ⊢
    by_cases hmem : c ∈ tl
    · rw [if_pos hmem] at h
      exact Bool.noConfusion h
    · simp [hmem]

theorem getSourceEdgeCount_addSourceLink (g : GState) (s p : Node) :
    getSourceEdgeCount (addSourceLink g s p).2 =
      getSourceEdgeCount g + (if (addSourceLink g s p).1 = true then 1 else 0) := by
  rw [getSourceEdgeCount_eq, getSourceEdgeCount_eq]
  unfold addSourceLink
  cases hg : alistGet g.sourceLinkIndex p with
  | none =>
    dsimp only
    rw [sumLens_alistSet_of_get_none _ _ _ hg]
    simp
  | some sl =>
    dsimp only
    split <;> rename_i hmem
    · simp
    · have := sumLens_alistSet_of_get_some g.sourceLinkIndex p (sl ++ [s]) sl hg
      simp at this ⊢
      omega

theorem getSourceEdgeCount_removeSourceLink (g : GState) (s p : Node) :
    getSourceEdgeCount (removeSourceLink g s p).2 +
        (if (removeSourceLink g s p).1 = true then 1 else 0) =
      getSourceEdgeCount g := by
  rw [getSourceEdgeCount_eq, getSourceEdgeCount_eq]
  unfold removeSourceLink
  cases hg : alistGet g.sourceLinkIndex p with
  | none => simp
  | some sl =>
    dsimp only
    split <;> rename_i hmem
    · have := sumLens_alistSet_of_get_some g.sourceLinkIndex p (sl.erase s) sl hg
      have hlen : (sl.erase s).length + 1 = sl.length := by
        rw [List.length_erase_of_mem hmem]
        have : 0 < sl.length := List.length_pos.mpr (List.ne_nil_of_mem hmem)
        omega
      simp at this ⊢
      omega
    · simp

theorem getTargetEdgeCount_addTargetLink (g : GState) (p c : Node) :
    getTargetEdgeCount (addTargetLink g p c).2 =
      getTargetEdgeCount g + (if (addTargetLink g p c).1 = true then 1 else 0) := by
  rw [getTargetEdgeCount_eq, getTargetEdgeCount_eq]
  unfold addTargetLink
  cases hg : alistGet g.targetLinkIndex p with
  | none =>
    dsimp only
    rw [sumLens_alistSet_of_get_none _ _ _ hg]
    simp
  | some tl =>
    dsimp only
    split <;> rename_i hmem
    · simp
    · have := sumLens_alistSet_of_get_some g.targetLinkIndex p (tl ++ [c]) tl hg
      simp at this ⊢
      omega

theorem getTargetEdgeCount_removeTargetLink (g : GState) (p c : Node) :
    getTargetEdgeCount (removeTargetLink g p c).2 +
        (if (removeTargetLink g p c).1 = true then 1 else 0) =
      getTargetEdgeCount g := by
  rw [getTargetEdgeCount_eq, getTargetEdgeCount_eq]
  unfold removeTargetLink
  cases hg : alistGet g.targetLinkIndex p with
  | none => simp
  | some tl =>
    dsimp only
    split <;> rename_i hmem
    · have := sumLens_alistSet_of_get_some g.targetLinkIndex p (tl.erase c) tl hg
      have hlen : (tl.erase c).length + 1 = tl.length := by
        rw [List.length_erase_of_mem hmem]
        have : 0 < tl.length := List.length_pos.mpr (List.ne_nil_of_mem hmem)
        omega
      simp at this ⊢
      omega
    · simp

theorem setsNodup_addSourceLink {g : GState} {s p : Node}
    (h : SetsNodup g.sourceLinkIndex) : SetsNodup (addSourceLink g s p).2.sourceLinkIndex := by
  unfold addSourceLink
  cases hg : alistGet g.sourceLinkIndex p with
  | none =>
    intro e he
    rcases mem_alistSet he with he' | he'
    · exact h e he'
    · subst he'
      simp
  | some sl =>
    dsimp only
    split <;> rename_i hmem
    · exact h
    · intro e he
      rcases mem_alistSet he with he' | he'
      · exact h e he'
      · subst he'
        have hsl : sl.Nodup := h (p, sl) (alistGet_mem hg)
        simp [List.nodup_append, hsl]
        exact hmem

theorem setsNodup_addTargetLink {g : GState} {p c : Node}
    (h : SetsNodup g.targetLinkIndex) : SetsNodup (addTargetLink g p c).2.targetLinkIndex := by
  unfold addTargetLink
  cases hg : alistGet g.targetLinkIndex p with
  | none =>
    intro e he
    rcases mem_alistSet he with he' | he'
    · exact h e he'
    · subst he'
      simp
  | some tl =>
    dsimp only
    split <;> rename_i hmem
    · exact h
    · intro e he
      rcases mem_alistSet he with he' | he'
      · exact h e he'
      · subst he'
        have htl : tl.Nodup := h (p, tl) (alistGet_mem hg)
        simp [List.nodup_append, htl]
        exact hmem

theorem setsNodup_removeSourceLink {g : GState} {s p : Node}
    (h : SetsNodup g.sourceLinkIndex) :
    SetsNodup (removeSourceLink g s p).2.sourceLinkIndex := by
  unfold removeSourceLink
  cases hg : alistGet g.sourceLinkIndex p with
  | none => exact h
  | some sl =>
    dsimp only
    split <;> rename_i hmem
    · intro e he
      rcases mem_alistSet he with he' | he'
      · exact h e he'
      · subst he'
        exact List.Nodup.erase s (h (p, sl) (alistGet_mem hg))
    · exact h

theorem setsNodup_removeTargetLink {g : GState} {p c : Node}
    (h : SetsNodup g.targetLinkIndex) :
    SetsNodup (removeTargetLink g p c).2.targetLinkIndex := by
  unfold removeTargetLink
  cases hg : alistGet g.targetLinkIndex p with
  | none => exact h
  | some tl =>
    dsimp only
    split <;> rename_i hmem
    · intro e he
      rcases mem_alistSet he with he' | he'
      · exact h e he'
      · subst he'
        exact List.Nodup.erase c (h (p, tl) (alistGet_mem hg))
    · exact h

/-! ### `removeEdge` characterization -/

theorem getSources_nodup {g : GState} (h : SetsNodup g.sourceLinkIndex) (x : Node) :
    (getSources g x).Nodup := by
  unfold getSources
  cases hg : alistGet g.sourceLinkIndex x with
  | none => simp
  | some sl => exact h _ (alistGet_mem hg)

theorem getTargets_nodup {g : GState} (h : SetsNodup g.targetLinkIndex) (x : Node) :
    (getTargets g x).Nodup := by
  unfold getTargets
  cases hg : alistGet g.targetLinkIndex x with
  | none => simp
  | some tl => exact h _ (alistGet_mem hg)

theorem removeEdge_state (g : GState) (s t : Node) (b : Bool) :
    (removeEdge g s t b).2.1 = (removeTargetLink (removeSourceLink g s t).2 s t).2 := by
  unfold removeEdge
  dsimp only
  split <;> rfl

theorem removeEdge_fst_raw (g : GState) (s t : Node) (b : Bool) :
    (removeEdge g s t b).1 =
      ((removeSourceLink g s t).1 || (removeTargetLink (removeSourceLink g s t).2 s t).1) := by
  unfold removeEdge
  dsimp only
  split <;> rename_i h
  · exact h.symm
  · simp at h
    simp [h]

theorem removeEdge_fst (g : GState) (s t : Node) (b : Bool) :
    (removeEdge g s t b).1 =
      (decide (s ∈ getSources g t) || decide (t ∈ getTargets g s)) := by
  rw [removeEdge_fst_raw, removeSourceLink_fst, removeTargetLink_fst,
    getTargets_removeSourceLink]

theorem removeEdge_events (g : GState) (s t : Node) (b : Bool) :
    (removeEdge g s t b).2.2 =
      if (removeEdge g s t b).1 = true then
        GEvent.edgeRemove s t :: (if b then [GEvent.graphUpdate] else [])
      else [] := by
  unfold removeEdge
  dsimp only
  split <;> rename_i h <;> simp [h]

theorem removeEdge_rest (g : GState) (s t : Node) (b : Bool) :
    (removeEdge g s t b).2.1.nodeTypeIndex = g.nodeTypeIndex ∧
    (removeEdge g s t b).2.1.nodes = g.nodes ∧
    (removeEdge g s t b).2.1.eventCallbacks = g.eventCallbacks := by
  rw [removeEdge_state]
  refine ⟨?_, ?_, ?_⟩
  · rw [(removeTargetLink_rest _ _ _).2.1, (removeSourceLink_rest _ _ _).2.1]
  · rw [(removeTargetLink_rest _ _ _).2.2.1, (removeSourceLink_rest _ _ _).2.2.1]
  · rw [(removeTargetLink_rest _ _ _).2.2.2, (removeSourceLink_rest _ _ _).2.2.2]

theorem getSources_removeEdge (g : GState) (s t : Node) (b : Bool) (x : Node) :
    getSources (removeEdge g s t b).2.1 x =
      if x = t then (getSources g t).erase s else getSources g x := by
  rw [removeEdge_state, getSources_removeTargetLink, getSources_removeSourceLink]

theorem getTargets_removeEdge (g : GState) (s t : Node) (b : Bool) (x : Node) :
    getTargets (removeEdge g s t b).2.1 x =
      if x = s then (getTargets g s).erase t else getTargets g x := by
  rw [removeEdge_state, getTargets_removeTargetLink, getTargets_removeSourceLink,
    getTargets_removeSourceLink]

theorem removeEdge_of_not_fst {g : GState} {s t : Node} {b : Bool}
    (h : (removeEdge g s t b).1 = false) :
    (removeEdge g s t b).2.1 = g ∧ (removeEdge g s t b).2.2 = [] := by
  have hraw := removeEdge_fst_raw g s t b
  rw [h] at hraw
  have h1 : (removeSourceLink g s t).1 = false := by
    cases h1 : (removeSourceLink g s t).1
    · rfl
    · simp [h1] at hraw
  have h2 : (removeTargetLink (removeSourceLink g s t).2 s t).1 = false := by
    cases h2 : (removeTargetLink (removeSourceLink g s t).2 s t).1 <;>
      simp [h2] at hraw
    rfl
  constructor
  · rw [removeEdge_state, removeTargetLink_snd_of_not_fst h2,
      removeSourceLink_snd_of_not_fst h1]
  · rw [removeEdge_events, h]
    simp

theorem edgeSym_removeEdge {g : GState} (s t : Node) (b : Bool) (hsym : EdgeSym g)
    (hs : SetsNodup g.sourceLinkIndex) (ht : SetsNodup g.targetLinkIndex) :
    EdgeSym (removeEdge g s t b).2.1 := by
  intro a c
  rw [getTargets_removeEdge, getSources_removeEdge]
  by_cases has : a = s <;> by_cases hct : c = t
  · rw [if_pos has, if_pos hct]
    rw [List.Nodup.mem_erase_iff (getTargets_nodup ht s),
      List.Nodup.mem_erase_iff (getSources_nodup hs t)]
    constructor
    · rintro ⟨hne, _⟩
      exact absurd hct hne
    · rintro ⟨hne, _⟩
      exact absurd has hne
  · rw [if_pos has, if_neg hct, List.Nodup.mem_erase_iff (getTargets_nodup ht s), has]
    constructor
    · rintro ⟨_, hmem⟩
      exact (hsym s c).mp hmem
    · intro hmem
      exact ⟨hct, (hsym s c).mpr hmem⟩
  · rw [if_neg has, if_pos hct, List.Nodup.mem_erase_iff (getSources_nodup hs t), hct]
    constructor
    · intro hmem
      exact ⟨has, (hsym a t).mp hmem⟩
    · rintro ⟨_, hmem⟩
      exact (hsym a t).mpr hmem
  · rw [if_neg has, if_neg hct]
    exact hsym a c

theorem counts_removeEdge {g : GState} (s t : Node) (b : Bool) (hsym : EdgeSym g)
    (hcnt : getSourceEdgeCount g = getTargetEdgeCount g) :
    getSourceEdgeCount (removeEdge g s t b).2.1 = getTargetEdgeCount (removeEdge g s t b).2.1 := by
  have hst : (removeSourceLink g s t).1 = (removeTargetLink (removeSourceLink g s t).2 s t).1 := by
    rw [removeSourceLink_fst, removeTargetLink_fst, getTargets_removeSourceLink]
    by_cases hm : s ∈ getSources g t
    · simp [hm, (hsym s t).mpr hm]
    · simp [hm]
      exact fun hh => hm ((hsym s t).mp hh)
  have c1 := getSourceEdgeCount_removeSourceLink g s t
  have c2 := getTargetEdgeCount_removeTargetLink (removeSourceLink g s t).2 s t
  have e1 : getSourceEdgeCount (removeTargetLink (removeSourceLink g s t).2 s t).2 =
      getSourceEdgeCount (removeSourceLink g s t).2 := by
    rw [getSourceEdgeCount_eq, getSourceEdgeCount_eq, (removeTargetLink_rest _ _ _).1]
  have e2 : getTargetEdgeCount (removeSourceLink g s t).2 = getTargetEdgeCount g := by
    rw [getTargetEdgeCount_eq, getTargetEdgeCount_eq, (removeSourceLink_rest _ _ _).1]
  rw [removeEdge_state, e1]
  rw [e2] at c2
  rw [← hst] at c2
  cases hr : (removeSourceLink g s t).1 <;> rw [hr] at c1 c2 <;> simp at c1 c2 <;> omega

theorem setsNodup_removeEdge_src {g : GState} (s t : Node) (b : Bool)
    (h : SetsNodup g.sourceLinkIndex) : SetsNodup (removeEdge g s t b).2.1.sourceLinkIndex := by
  rw [removeEdge_state, (removeTargetLink_rest _ _ _).1]
  exact setsNodup_removeSourceLink h

theorem setsNodup_removeEdge_tgt {g : GState} (s t : Node) (b : Bool)
    (h : SetsNodup g.targetLinkIndex) : SetsNodup (removeEdge g s t b).2.1.targetLinkIndex := by
  rw [removeEdge_state]
  apply setsNodup_removeTargetLink
  rw [(removeSourceLink_rest _ _ _).1]
  exact h

theorem inv_removeEdge {g : GState} (s t : Node) (b : Bool) (h : Inv g) :
    Inv (removeEdge g s t b).2.1 := by
  obtain ⟨hs, ht, hty, hsym, hcnt, htinv, hcb, hreg⟩ := h
  refine ⟨setsNodup_removeEdge_src s t b hs, setsNodup_removeEdge_tgt s t b ht, ?_,
    edgeSym_removeEdge s t b hsym hs ht, counts_removeEdge s t b hsym hcnt, ?_, ?_, ?_⟩
  · rw [(removeEdge_rest g s t b).1]
    exact hty
  · intro e he
    rw [(removeEdge_rest g s t b).1]
    rw [(removeEdge_rest g s t b).2.1] at he
    exact htinv e he
  · rw [(removeEdge_rest g s t b).2.2]
    exact hcb
  · intro e he
    rw [(removeEdge_rest g s t b).2.1] at he
    exact hreg e he

/-! ### The edge-teardown loops of `handleRemoveNode` -/

theorem edgeFold_inv {P : GState → Prop} (step : GState → Node → Bool × GState × List GEvent)
    (hstep : ∀ g x, P g → P (step g x).2.1) :
    ∀ (l : List Node) (acc : GState × List GEvent), P acc.1 → P (edgeFold step l acc).1 := by
  intro l
  induction l with
  | nil =>
    intro acc h
    exact h
  | cons x xs ih =>
    intro acc h
    exact ih _ (hstep _ _ h)

theorem edgeFold_sources_spec (node : Node) :
    ∀ (l : List Node) (g : GState) (evs : List GEvent),
      getSources g node = l → l.Nodup →
      getSources (edgeFold (fun s source => removeEdge s source node true) l (g, evs)).1 node
          = [] ∧
      (∀ x, x ≠ node →
        getSources (edgeFold (fun s source => removeEdge s source node true) l (g, evs)).1 x
          = getSources g x) ∧
      (∀ x, getTargets (edgeFold (fun s source => removeEdge s source node true) l (g, evs)).1 x
          = if x ∈ l then (getTargets g x).erase node else getTargets g x) ∧
      (edgeFold (fun s source => removeEdge s source node true) l (g, evs)).1.nodes = g.nodes ∧
      (edgeFold (fun s source => removeEdge s source node true) l (g, evs)).1.nodeTypeIndex
          = g.nodeTypeIndex ∧
      (edgeFold (fun s source => removeEdge s source node true) l (g, evs)).1.eventCallbacks
          = g.eventCallbacks ∧
      (edgeFold (fun s source => removeEdge s source node true) l (g, evs)).2
          = evs ++ l.flatMap (fun s => [GEvent.edgeRemove s node, GEvent.graphUpdate]) := by
  intro l
  induction l with
  | nil =>
    intro g evs hl _
    refine ⟨hl, fun x _ => rfl, fun x => by simp [edgeFold], rfl, rfl, rfl, by simp [edgeFold]⟩
  | cons s rest ih =>
    intro g evs hl hnd
    have hsmem : s ∈ getSources g node := by
      rw [hl]
      exact List.mem_cons_self s rest
    have hfst : (removeEdge g s node true).1 = true := by
      rw [removeEdge_fst]
      simp [hsmem]
    have hstate_src : ∀ x, getSources (removeEdge g s node true).2.1 x =
        if x = node then (getSources g node).erase s else getSources g x :=
      fun x => getSources_removeEdge g s node true x
    have hsrc_node : getSources (removeEdge g s node true).2.1 node = rest := by
      rw [hstate_src node, if_pos rfl, hl, List.erase_cons_head]
    have hrest_nd : rest.Nodup := hnd.of_cons
    have hs_not : s ∉ rest := (List.nodup_cons.mp hnd).1
    have hunfold : edgeFold (fun s1 source => removeEdge s1 source node true) (s :: rest)
        (g, evs) = edgeFold (fun s1 source => removeEdge s1 source node true) rest
          ((removeEdge g s node true).2.1, evs ++ (removeEdge g s node true).2.2) := by
      simp [edgeFold]
    obtain ⟨ih1, ih2, ih3, ih4, ih5, ih6, ih7⟩ :=
      ih (removeEdge g s node true).2.1 (evs ++ (removeEdge g s node true).2.2)
        hsrc_node hrest_nd
    have hevs : (removeEdge g s node true).2.2 =
        [GEvent.edgeRemove s node, GEvent.graphUpdate] := by
      rw [removeEdge_events, if_pos hfst]
      simp
    refine ⟨?_, ?_, ?_, ?_, ?_, ?_, ?_⟩
    · rw [hunfold]
      exact ih1
    · intro x hx
      rw [hunfold, ih2 x hx, hstate_src x, if_neg hx]
    · intro x
      rw [hunfold, ih3 x, getTargets_removeEdge]
      by_cases hxs : x = s
      · subst hxs
        simp [hs_not]
      · by_cases hxr : x ∈ rest <;> simp [hxs, hxr]
    · rw [hunfold, ih4, (removeEdge_rest g s node true).2.1]
    · rw [hunfold, ih5, (removeEdge_rest g s node true).1]
    · rw [hunfold, ih6, (removeEdge_rest g s node true).2.2]
    · rw [hunfold, ih7, hevs]
      simp

theorem edgeFold_targets_spec (node : Node) :
    ∀ (l : List Node) (g : GState) (evs : List GEvent),
      getTargets g node = l → l.Nodup →
      getTargets (edgeFold (fun s target => removeEdge s node target true) l (g, evs)).1 node
          = [] ∧
      (∀ x, x ≠ node →
        getTargets (edgeFold (fun s target => removeEdge s node target true) l (g, evs)).1 x
          = getTargets g x) ∧
      (∀ x, getSources (edgeFold (fun s target => removeEdge s node target true) l (g, evs)).1 x
          = if x ∈ l then (getSources g x).erase node else getSources g x) ∧
      (edgeFold (fun s target => removeEdge s node target true) l (g, evs)).1.nodes = g.nodes ∧
      (edgeFold (fun s target => removeEdge s node target true) l (g, evs)).1.nodeTypeIndex
          = g.nodeTypeIndex ∧
      (edgeFold (fun s target => removeEdge s node target true) l (g, evs)).1.eventCallbacks
          = g.eventCallbacks ∧
      (edgeFold (fun s target => removeEdge s node target true) l (g, evs)).2
          = evs ++ l.flatMap (fun t => [GEvent.edgeRemove node t, GEvent.graphUpdate]) := by
  intro l
  induction l with
  | nil =>
    intro g evs hl _
    refine ⟨hl, fun x _ => rfl, fun x => by simp [edgeFold], rfl, rfl, rfl, by simp [edgeFold]⟩
  | cons t rest ih =>
    intro g evs hl hnd
    have htmem : t ∈ getTargets g node := by
      rw [hl]
      exact List.mem_cons_self t rest
    have hfst : (removeEdge g node t true).1 = true := by
      rw [removeEdge_fst]
      simp [htmem]
    have hstate_tgt : ∀ x, getTargets (removeEdge g node t true).2.1 x =
        if x = node then (getTargets g node).erase t else getTargets g x :=
      fun x => getTargets_removeEdge g node t true x
    have htgt_node : getTargets (removeEdge g node t true).2.1 node = rest := by
      rw [hstate_tgt node, if_pos rfl, hl, List.erase_cons_head]
    have hrest_nd : rest.Nodup := hnd.of_cons
    have ht_not : t ∉ rest := (List.nodup_cons.mp hnd).1
    have hunfold : edgeFold (fun s target => removeEdge s node target true) (t :: rest)
        (g, evs) = edgeFold (fun s target => removeEdge s node target true) rest
          ((removeEdge g node t true).2.1, evs ++ (removeEdge g node t true).2.2) := by
      simp [edgeFold]
    obtain ⟨ih1, ih2, ih3, ih4, ih5, ih6, ih7⟩ :=
      ih (removeEdge g node t true).2.1 (evs ++ (removeEdge g node t true).2.2)
        htgt_node hrest_nd
    have hevs : (removeEdge g node t true).2.2 =
        [GEvent.edgeRemove node t, GEvent.graphUpdate] := by
      rw [removeEdge_events, if_pos hfst]
      simp
    refine ⟨?_, ?_, ?_, ?_, ?_, ?_, ?_⟩
    · rw [hunfold]
      exact ih1
    · intro x hx
      rw [hunfold, ih2 x hx, hstate_tgt x, if_neg hx]
    · intro x
      rw [hunfold, ih3 x, getSources_removeEdge]
      by_cases hxt : x = t
      · subst hxt
        simp [ht_not]
      · by_cases hxr : x ∈ rest <;> simp [hxt, hxr]
    · rw [hunfold, ih4, (removeEdge_rest g node t true).2.1]
    · rw [hunfold, ih5, (removeEdge_rest g node t true).1]
    · rw [hunfold, ih6, (removeEdge_rest g node t true).2.2]
    · rw [hunfold, ih7, hevs]
      simp

theorem mem_alistDelete {α β : Type} [DecidableEq α] {l : List (α × β)} {k : α}
    {e : α × β} (h : e ∈ alistDelete l k) : e ∈ l := by
  induction l with
  | nil => simp [alistDelete] at h
  | cons e0 t ih =>
    obtain ⟨k0, v0⟩ := e0
    by_cases h0 : k0 = k
    · simp [alistDelete, h0] at h
      simp [h]
    · simp [alistDelete, h0] at h
      rcases h with h | h
      · simp [h]
      · simp [ih h]

theorem alistGet_alistSet_isSome {α β : Type} [DecidableEq α] {l : List (α × β)} {k' : α}
    (k : α) (v : β) (h : (alistGet l k').isSome = true) :
    (alistGet (alistSet l k v) k').isSome = true := by
  by_cases hk : k = k'
  · subst hk
    rw [alistGet_alistSet_self]
    rfl
  · rw [alistGet_alistSet_ne _ _ hk]
    exact h

/-- The state part of `handleRemoveNode` in terms of the two folds. -/
theorem handleRemoveNode_unfold (g : GState) (node : Node) (eNR eGU : Bool) :
    handleRemoveNode g node eNR eGU =
      (let p2 := edgeFold (fun s target => removeEdge s node target true)
        (getTargets (edgeFold (fun s source => removeEdge s source node true)
          (getSources g node) (g, [])).1 node)
        (edgeFold (fun s source => removeEdge s source node true) (getSources g node) (g, []));
      let g3 := match alistGet p2.1.nodeTypeIndex node.nodeType with
        | some ts =>
          { p2.1 with nodeTypeIndex := alistSet p2.1.nodeTypeIndex node.nodeType (ts.erase node) }
        | none => p2.1
      match alistGet g3.nodes node.nodeId with
      | some _ =>
        (true,
          { g3 with nodes := alistDelete g3.nodes node.nodeId,
                    eventCallbacks := g3.eventCallbacks.erase node },
          p2.2 ++ (if eNR then [GEvent.nodeRemove node] else [])
            ++ (if eGU then [GEvent.graphUpdate] else []))
      | none => (false, g3, p2.2)) := rfl

theorem inv_handleRemoveNode {g : GState} (node : Node) (eNR eGU : Bool) (h : Inv g) :
    Inv (handleRemoveNode g node eNR eGU).2.1 := by
  rw [handleRemoveNode_unfold]
  have hp1 : Inv (edgeFold (fun s source => removeEdge s source node true)
      (getSources g node) (g, [])).1 :=
    edgeFold_inv _ (fun g' x hg' => inv_removeEdge x node true hg') _ _ h
  have hp2 : Inv (edgeFold (fun s target => removeEdge s node target true)
      (getTargets (edgeFold (fun s source => removeEdge s source node true)
        (getSources g node) (g, [])).1 node)
      (edgeFold (fun s source => removeEdge s source node true) (getSources g node) (g, []))).1 := by
    have := edgeFold_inv (P := Inv) _ (fun g' x hg' => inv_removeEdge node x true hg')
      (getTargets (edgeFold (fun s source => removeEdge s source node true)
        (getSources g node) (g, [])).1 node)
      ((edgeFold (fun s source => removeEdge s source node true) (getSources g node) (g, [])).1,
        (edgeFold (fun s source => removeEdge s source node true) (getSources g node) (g, [])).2)
      hp1
    simpa using this
  dsimp only
  generalize hq : edgeFold (fun s target => removeEdge s node target true)
      (getTargets (edgeFold (fun s source => removeEdge s source node true)
        (getSources g node) (g, [])).1 node)
      (edgeFold (fun s source => removeEdge s source node true) (getSources g node) (g, [])) = p2
      at hp2
  obtain ⟨is, it, ity, isym, icnt, itinv, icb, ireg⟩ := hp2
  have hg3 : ∀ g3 : GState,
      (g3.sourceLinkIndex = p2.1.sourceLinkIndex ∧ g3.targetLinkIndex = p2.1.targetLinkIndex ∧
        TypeSetsNodup g3.nodeTypeIndex ∧ g3.nodes = p2.1.nodes ∧
        (∀ ty, (alistGet p2.1.nodeTypeIndex ty).isSome = true →
          (alistGet g3.nodeTypeIndex ty).isSome = true) ∧
        g3.eventCallbacks = p2.1.eventCallbacks) →
      Inv (match alistGet g3.nodes node.nodeId with
        | some _ =>
          (true,
            { g3 with nodes := alistDelete g3.nodes node.nodeId,
                      eventCallbacks := g3.eventCallbacks.erase node },
            p2.2 ++ (if eNR then [GEvent.nodeRemove node] else [])
              ++ (if eGU then [GEvent.graphUpdate] else []))
        | none => (false, g3, p2.2)).2.1 := by
    intro g3 ⟨e1, e2, e3, e4, e5, e6⟩
    have hES : EdgeSym g3 := by
      intro a c
      unfold getSources getTargets
      rw [e1, e2]
      exact isym a c
    have hCN : getSourceEdgeCount g3 = getTargetEdgeCount g3 := by
      unfold getSourceEdgeCount getTargetEdgeCount
      rw [e1, e2]
      exact icnt
    cases hr : alistGet g3.nodes node.nodeId with
    | none =>
      refine ⟨?_, ?_, e3, hES, hCN, ?_, ?_, ?_⟩
      · rw [e1]; exact is
      · rw [e2]; exact it
      · intro e he
        rw [e4] at he
        exact e5 _ (itinv e he)
      · rw [e6]; exact icb
      · intro e he
        rw [e4] at he
        exact ireg e he
    | some m =>
      refine ⟨?_, ?_, e3, ?_, ?_, ?_, ?_, ?_⟩
      · show SetsNodup g3.sourceLinkIndex
        rw [e1]; exact is
      · show SetsNodup g3.targetLinkIndex
        rw [e2]; exact it
      · intro a c
        exact hES a c
      · exact hCN
      · intro e he
        have he' : e ∈ g3.nodes := mem_alistDelete he
        rw [e4] at he'
        exact e5 _ (itinv e he')
      · show (g3.eventCallbacks.erase node).Nodup
        rw [e6]
        exact List.Nodup.erase node icb
      · intro e he
        have he' : e ∈ g3.nodes := mem_alistDelete he
        rw [e4] at he'
        exact ireg e he'
  cases hty : alistGet p2.1.nodeTypeIndex node.nodeType with
  | none =>
    exact hg3 p2.1 ⟨rfl, rfl, ity, rfl, fun ty h' => h', rfl⟩
  | some ts =>
    apply hg3
    refine ⟨rfl, rfl, ?_, rfl, ?_, rfl⟩
    · intro e he
      rcases mem_alistSet he with he' | he'
      · exact ity e he'
      · subst he'
        exact List.Nodup.erase node (ity _ (alistGet_mem hty))
    · intro ty h'
      exact alistGet_alistSet_isSome _ _ h'

/-- Full characterization of `handleRemoveNode`: the returned flag tests whether
*some* entry exists under the node's id; both loops empty the node's adjacency
sets and erase it from every adjacent set; the type bucket, registry, and
listener registry are cleaned up; the events are the per-edge
`edgeRemove`/`graphUpdate` pairs followed by the optional node events. -/
theorem handleRemoveNode_spec (g : GState) (node : Node) (eNR eGU : Bool)
    (hs : SetsNodup g.sourceLinkIndex) (ht : SetsNodup g.targetLinkIndex) :
    (handleRemoveNode g node eNR eGU).1 = (alistGet g.nodes node.nodeId).isSome ∧
    getSources (handleRemoveNode g node eNR eGU).2.1 node = [] ∧
    getTargets (handleRemoveNode g node eNR eGU).2.1 node = [] ∧
    (∀ x, x ≠ node → getSources (handleRemoveNode g node eNR eGU).2.1 x =
      if x ∈ secondLoopTargets g node then (getSources g x).erase node
      else getSources g x) ∧
    (∀ x, x ≠ node → getTargets (handleRemoveNode g node eNR eGU).2.1 x =
      if x ∈ getSources g node then (getTargets g x).erase node else getTargets g x) ∧
    (handleRemoveNode g node eNR eGU).2.1.nodes =
      (if (alistGet g.nodes node.nodeId).isSome then alistDelete g.nodes node.nodeId
       else g.nodes) ∧
    (handleRemoveNode g node eNR eGU).2.1.nodeTypeIndex =
      (match alistGet g.nodeTypeIndex node.nodeType with
        | some ts => alistSet g.nodeTypeIndex node.nodeType (ts.erase node)
        | none => g.nodeTypeIndex) ∧
    (handleRemoveNode g node eNR eGU).2.1.eventCallbacks =
      (if (alistGet g.nodes node.nodeId).isSome then g.eventCallbacks.erase node
       else g.eventCallbacks) ∧
    (handleRemoveNode g node eNR eGU).2.2 =
      (getSources g node).flatMap (fun s => [GEvent.edgeRemove s node, GEvent.graphUpdate])
        ++ (secondLoopTargets g node).flatMap
            (fun t => [GEvent.edgeRemove node t, GEvent.graphUpdate])
        ++ (if (alistGet g.nodes node.nodeId).isSome then
              (if eNR then [GEvent.nodeRemove node] else [])
                ++ (if eGU then [GEvent.graphUpdate] else [])
            else []) := by
  obtain ⟨f1, f2, f3, f4, f5, f6, f7⟩ :=
    edgeFold_sources_spec node (getSources g node) g [] rfl (getSources_nodup hs node)
  have hT : getTargets (edgeFold (fun s source => removeEdge s source node true)
      (getSources g node) (g, [])).1 node = secondLoopTargets g node := by
    rw [f3 node]
    rfl
  have hTnd : (secondLoopTargets g node).Nodup := by
    unfold secondLoopTargets
    split
    · exact List.Nodup.erase node (getTargets_nodup ht node)
    · exact getTargets_nodup ht node
  obtain ⟨q1, q2, q3, q4, q5, q6, q7⟩ :=
    edgeFold_targets_spec node (secondLoopTargets g node)
      (edgeFold (fun s source => removeEdge s source node true) (getSources g node) (g, [])).1
      (edgeFold (fun s source => removeEdge s source node true) (getSources g node) (g, [])).2
      hT hTnd
  simp only [Prod.mk.eta] at q1 q2 q3 q4 q5 q6 q7
  rw [handleRemoveNode_unfold]
  dsimp only
  rw [hT]
  generalize hp2 : edgeFold (fun s target => removeEdge s node target true)
      (secondLoopTargets g node)
      (edgeFold (fun s source => removeEdge s source node true) (getSources g node) (g, []))
      = p2 at q1 q2 q3 q4 q5 q6 q7
  have hN : p2.1.nodes = g.nodes := q4.trans f4
  have hTy : p2.1.nodeTypeIndex = g.nodeTypeIndex := q5.trans f5
  have hCb : p2.1.eventCallbacks = g.eventCallbacks := q6.trans f6
  have hEv : p2.2 =
      (getSources g node).flatMap (fun s => [GEvent.edgeRemove s node, GEvent.graphUpdate])
        ++ (secondLoopTargets g node).flatMap
            (fun t => [GEvent.edgeRemove node t, GEvent.graphUpdate]) := by
    rw [q7, f7]
    simp
  have hSrcNode : getSources p2.1 node = [] := by
    rw [q3 node, f1]
    split <;> rfl
  have hSrcX : ∀ x, x ≠ node → getSources p2.1 x =
      if x ∈ secondLoopTargets g node then (getSources g x).erase node
      else getSources g x := by
    intro x hx
    rw [q3 x, f2 x hx]
  have hTgtX : ∀ x, x ≠ node → getTargets p2.1 x =
      if x ∈ getSources g node then (getTargets g x).erase node else getTargets g x := by
    intro x hx
    rw [q2 x hx, f3 x]
  rw [hTy]
  cases htyx : alistGet g.nodeTypeIndex node.nodeType with
  | none =>
    dsimp only
    simp only [hN, hCb, hTy]
    cases hreg : alistGet g.nodes node.nodeId with
    | none =>
      dsimp only
      exact ⟨rfl, hSrcNode, q1, hSrcX, hTgtX, by simp [hN], hTy, by simp [hCb],
        by simp [hEv]⟩
    | some m =>
      dsimp only
      exact ⟨rfl, hSrcNode, q1, hSrcX, hTgtX, by simp, rfl, by simp, by simp [hEv]⟩
  | some ts =>
    dsimp only
    simp only [hN, hCb, hTy]
    cases hreg : alistGet g.nodes node.nodeId with
    | none =>
      dsimp only
      exact ⟨rfl, hSrcNode, q1, hSrcX, hTgtX, by simp [hN], rfl, by simp [hCb],
        by simp [hEv]⟩
    | some m =>
      dsimp only
      exact ⟨rfl, hSrcNode, q1, hSrcX, hTgtX, by simp, rfl, by simp, by simp [hEv]⟩

/-! ### `handleAddNode` characterization -/

theorem registerNode_fst (g1 : GState) (node : Node) (eGU : Bool) (evs : List GEvent) :
    (registerNode g1 node eGU evs).1 = true := by
  unfold registerNode
  rfl

theorem handleAddNode_fst (g : GState) (node : Node) (eGU : Bool) :
    (handleAddNode g node eGU).1 = decide (¬ alistGet g.nodes node.nodeId = some node) := by
  unfold handleAddNode
  cases hty : alistGet g.nodeTypeIndex node.nodeType with
  | none =>
    dsimp only
    cases hreg : alistGet g.nodes node.nodeId with
    | none => simp [registerNode_fst]
    | some c =>
      by_cases hc : c = node
      · subst hc
        simp
      · simp [hc, registerNode_fst]
  | some ts =>
    dsimp only
    cases hreg : alistGet g.nodes node.nodeId with
    | none => simp [registerNode_fst]
    | some c =>
      by_cases hc : c = node
      · subst hc
        simp
      · simp [hc, registerNode_fst]

theorem handleAddNode_false (g : GState) (node : Node) (eGU : Bool)
    (h : alistGet g.nodes node.nodeId = some node)
    (hty : (alistGet g.nodeTypeIndex node.nodeType).isSome = true) :
    handleAddNode g node eGU = (false, g, []) := by
  unfold handleAddNode
  cases hty' : alistGet g.nodeTypeIndex node.nodeType with
  | none =>
    rw [hty'] at hty
    simp at hty
  | some ts =>
    dsimp only
    rw [h]
    simp

theorem edgeFold_events_sub {P : GEvent → Prop}
    (step : GState → Node → Bool × GState × List GEvent)
    (hstep : ∀ g x, ∀ e ∈ (step g x).2.2, P e) :
    ∀ (l : List Node) (acc : GState × List GEvent) (e : GEvent),
      e ∈ (edgeFold step l acc).2 → e ∈ acc.2 ∨ P e := by
  intro l
  induction l with
  | nil =>
    intro acc e he
    exact Or.inl he
  | cons x xs ih =>
    intro acc e he
    rcases ih _ e he with h' | h'
    · rcases List.mem_append.mp h' with h'' | h''
      · exact Or.inl h''
      · exact Or.inr (hstep _ _ _ h'')
    · exact Or.inr h'

theorem removeEdge_events_kinds (g : GState) (s t : Node) (b : Bool) :
    ∀ e ∈ (removeEdge g s t b).2.2, e = GEvent.edgeRemove s t ∨ e = GEvent.graphUpdate := by
  intro e he
  rw [removeEdge_events] at he
  split at he
  · rcases List.mem_cons.mp he with h | h
    · exact Or.inl h
    · right
      cases hb : b <;> rw [hb] at h <;> simp at h
      exact h
  · simp at he

theorem handleRemoveNode_events_kinds (g : GState) (node : Node) (eNR eGU : Bool) :
    ∀ e ∈ (handleRemoveNode g node eNR eGU).2.2,
      (∃ a b, e = GEvent.edgeRemove a b) ∨ e = GEvent.graphUpdate ∨
        (e = GEvent.nodeRemove node ∧ eNR = true) := by
  intro e he
  rw [handleRemoveNode_unfold] at he
  dsimp only at he
  have hstep1 : ∀ (g' : GState) (x : Node),
      ∀ e' ∈ ((fun s source => removeEdge s source node true) g' x).2.2,
        (∃ a b, e' = GEvent.edgeRemove a b) ∨ e' = GEvent.graphUpdate := by
    intro g' x e' he'
    rcases removeEdge_events_kinds g' x node true e' he' with h | h
    · exact Or.inl ⟨x, node, h⟩
    · exact Or.inr h
  have hstep2 : ∀ (g' : GState) (x : Node),
      ∀ e' ∈ ((fun s target => removeEdge s node target true) g' x).2.2,
        (∃ a b, e' = GEvent.edgeRemove a b) ∨ e' = GEvent.graphUpdate := by
    intro g' x e' he'
    rcases removeEdge_events_kinds g' node x true e' he' with h | h
    · exact Or.inl ⟨node, x, h⟩
    · exact Or.inr h
  have hp1 : ∀ e' ∈ (edgeFold (fun s source => removeEdge s source node true)
      (getSources g node) (g, [])).2,
      (∃ a b, e' = GEvent.edgeRemove a b) ∨ e' = GEvent.graphUpdate := by
    intro e' he'
    rcases edgeFold_events_sub _ hstep1 _ _ _ he' with h | h
    · simp at h
    · exact h
  have hp2 : ∀ e' ∈ (edgeFold (fun s target => removeEdge s node target true)
      (getTargets (edgeFold (fun s source => removeEdge s source node true)
        (getSources g node) (g, [])).1 node)
      (edgeFold (fun s source => removeEdge s source node true)
        (getSources g node) (g, []))).2,
      (∃ a b, e' = GEvent.edgeRemove a b) ∨ e' = GEvent.graphUpdate := by
    intro e' he'
    rcases edgeFold_events_sub _ hstep2 _ _ _ he' with h | h
    · exact hp1 e' h
    · exact h
  cases htyx : alistGet (edgeFold (fun s target => removeEdge s node target true)
      (getTargets (edgeFold (fun s source => removeEdge s source node true)
        (getSources g node) (g, [])).1 node)
      (edgeFold (fun s source => removeEdge s source node true)
        (getSources g node) (g, []))).1.nodeTypeIndex node.nodeType with
  | none =>
    rw [htyx] at he
    dsimp only at he
    cases hreg : alistGet (edgeFold (fun s target => removeEdge s node target true)
        (getTargets (edgeFold (fun s source => removeEdge s source node true)
          (getSources g node) (g, [])).1 node)
        (edgeFold (fun s source => removeEdge s source node true)
          (getSources g node) (g, []))).1.nodes node.nodeId with
    | none =>
      rw [hreg] at he
      dsimp only at he
      rcases hp2 e he with h | h
      · exact Or.inl h
      · exact Or.inr (Or.inl h)
    | some m =>
      rw [hreg] at he
      dsimp only at he
      rcases List.mem_append.mp he with h | h
      · rcases List.mem_append.mp h with h' | h'
        · rcases hp2 e h' with h'' | h''
          · exact Or.inl h''
          · exact Or.inr (Or.inl h'')
        · cases heNR : eNR <;> rw [heNR] at h' <;> simp at h'
          exact Or.inr (Or.inr ⟨h', rfl⟩)
      · cases heGU : eGU <;> rw [heGU] at h <;> simp at h
        exact Or.inr (Or.inl h)
  | some ts =>
    rw [htyx] at he
    dsimp only at he
    cases hreg : alistGet (edgeFold (fun s target => removeEdge s node target true)
        (getTargets (edgeFold (fun s source => removeEdge s source node true)
          (getSources g node) (g, [])).1 node)
        (edgeFold (fun s source => removeEdge s source node true)
          (getSources g node) (g, []))).1.nodes node.nodeId with
    | none =>
      rw [hreg] at he
      dsimp only at he
      rcases hp2 e he with h | h
      · exact Or.inl h
      · exact Or.inr (Or.inl h)
    | some m =>
      rw [hreg] at he
      dsimp only at he
      rcases List.mem_append.mp he with h | h
      · rcases List.mem_append.mp h with h' | h'
        · rcases hp2 e h' with h'' | h''
          · exact Or.inl h''
          · exact Or.inr (Or.inl h'')
        · cases heNR : eNR <;> rw [heNR] at h' <;> simp at h'
          exact Or.inr (Or.inr ⟨h', rfl⟩)
      · cases heGU : eGU <;> rw [heGU] at h <;> simp at h
        exact Or.inr (Or.inl h)

theorem registerNode_spec (g1 : GState) (node : Node) (eGU : Bool) (evs : List GEvent) :
    (registerNode g1 node eGU evs).2.1.sourceLinkIndex = g1.sourceLinkIndex ∧
    (registerNode g1 node eGU evs).2.1.targetLinkIndex = g1.targetLinkIndex ∧
    (registerNode g1 node eGU evs).2.1.nodeTypeIndex =
      alistSet g1.nodeTypeIndex node.nodeType
        (setAdd ((alistGet g1.nodeTypeIndex node.nodeType).getD []) node) ∧
    (registerNode g1 node eGU evs).2.1.nodes = alistSet g1.nodes node.nodeId node ∧
    (registerNode g1 node eGU evs).2.1.eventCallbacks =
      (if node.hasListener then setAdd g1.eventCallbacks node else g1.eventCallbacks) ∧
    (registerNode g1 node eGU evs).2.2 =
      evs ++ GEvent.nodeUpdate node :: (if eGU then [GEvent.graphUpdate] else []) := by
  unfold registerNode
  dsimp only
  by_cases hl : node.hasListener = true <;> simp [hl]

theorem handleAddNode_fresh_spec (g : GState) (node : Node) (eGU : Bool)
    (h : alistGet g.nodes node.nodeId = none) :
    (handleAddNode g node eGU).1 = true ∧
    (handleAddNode g node eGU).2.1.sourceLinkIndex = g.sourceLinkIndex ∧
    (handleAddNode g node eGU).2.1.targetLinkIndex = g.targetLinkIndex ∧
    (handleAddNode g node eGU).2.1.nodes = alistSet g.nodes node.nodeId node ∧
    (handleAddNode g node eGU).2.2 =
      GEvent.nodeUpdate node :: (if eGU then [GEvent.graphUpdate] else []) := by
  unfold handleAddNode
  cases hty : alistGet g.nodeTypeIndex node.nodeType with
  | none =>
    dsimp only
    rw [h]
    dsimp only
    obtain ⟨r1, r2, r3, r4, r5, r6⟩ := registerNode_spec
      { sourceLinkIndex := g.sourceLinkIndex, targetLinkIndex := g.targetLinkIndex,
        nodeTypeIndex := alistSet g.nodeTypeIndex node.nodeType [], nodes := g.nodes,
        eventCallbacks := g.eventCallbacks } node eGU []
    exact ⟨registerNode_fst _ _ _ _, r1, r2, r4, by rw [r6]; simp⟩
  | some ts =>
    dsimp only
    rw [h]
    dsimp only
    obtain ⟨r1, r2, r3, r4, r5, r6⟩ := registerNode_spec g node eGU []
    exact ⟨registerNode_fst _ _ _ _, r1, r2, r4, by rw [r6]; simp⟩

theorem getNodesByType_nodup {g : GState} (h : TypeSetsNodup g.nodeTypeIndex) (t : Nat) :
    ((alistGet g.nodeTypeIndex t).getD []).Nodup := by
  cases hg : alistGet g.nodeTypeIndex t with
  | none => simp
  | some ts => exact h _ (alistGet_mem hg)

theorem inv_setBucket (g : GState) (nt : Nat) (v : List Node) (hv : v.Nodup) (h : Inv g) :
    Inv { g with nodeTypeIndex := alistSet g.nodeTypeIndex nt v } := by
  obtain ⟨hs, ht, hty, hsym, hcnt, htinv, hcb, hrid⟩ := h
  refine ⟨hs, ht, ?_, hsym, hcnt, ?_, hcb, hrid⟩
  · intro e he
    rcases mem_alistSet he with he' | he'
    · exact hty e he'
    · subst he'
      exact hv
  · intro e he
    exact alistGet_alistSet_isSome _ _ (htinv e he)

theorem inv_registerNode (g1 : GState) (node : Node) (eGU : Bool) (evs : List GEvent)
    (h : Inv g1) : Inv (registerNode g1 node eGU evs).2.1 := by
  obtain ⟨hs, ht, hty, hsym, hcnt, htinv, hcb, hrid⟩ := h
  obtain ⟨r1, r2, r3, r4, r5, r6⟩ := registerNode_spec g1 node eGU evs
  refine ⟨?_, ?_, ?_, ?_, ?_, ?_, ?_, ?_⟩
  · intro e he
    rw [r1] at he
    exact hs e he
  · intro e he
    rw [r2] at he
    exact ht e he
  · intro e he
    rw [r3] at he
    rcases mem_alistSet he with he' | he'
    · exact hty e he'
    · subst he'
      exact setAdd_nodup (getNodesByType_nodup hty node.nodeType)
  · intro a c
    unfold getSources getTargets
    rw [r1, r2]
    exact hsym a c
  · rw [getSourceEdgeCount_eq, getTargetEdgeCount_eq, r1, r2]
    exact hcnt
  · intro e he
    rw [r4] at he
    rw [r3]
    rcases mem_alistSet he with he' | he'
    · exact alistGet_alistSet_isSome _ _ (htinv e he')
    · subst he'
      rw [alistGet_alistSet_self]
      rfl
  · rw [r5]
    split
    · exact setAdd_nodup hcb
    · exact hcb
  · intro e he
    rw [r4] at he
    rcases mem_alistSet he with he' | he'
    · exact hrid e he'
    · subst he'
      rfl

theorem inv_handleAddNode {g : GState} (node : Node) (eGU : Bool) (h : Inv g) :
    Inv (handleAddNode g node eGU).2.1 := by
  unfold handleAddNode
  cases hty : alistGet g.nodeTypeIndex node.nodeType with
  | none =>
    dsimp only
    have h0 : Inv { g with nodeTypeIndex := alistSet g.nodeTypeIndex node.nodeType [] } :=
      inv_setBucket g node.nodeType [] (by simp) h
    cases hreg : alistGet g.nodes node.nodeId with
    | none => exact inv_registerNode _ node eGU [] h0
    | some c =>
      dsimp only
      by_cases hcn : c = node
      · rw [if_pos hcn]
        exact h0
      · rw [if_neg hcn]
        refine inv_registerNode _ node eGU _ (inv_handleRemoveNode c false false ?_)
        exact inv_setBucket { g with nodeTypeIndex := alistSet g.nodeTypeIndex node.nodeType [] }
          node.nodeType _ (List.Nodup.erase c (getNodesByType_nodup h0.2.2.1 node.nodeType)) h0
  | some ts =>
    dsimp only
    cases hreg : alistGet g.nodes node.nodeId with
    | none => exact inv_registerNode _ node eGU [] h
    | some c =>
      dsimp only
      by_cases hcn : c = node
      · rw [if_pos hcn]
        exact h
      · rw [if_neg hcn]
        refine inv_registerNode _ node eGU _ (inv_handleRemoveNode c false false ?_)
        exact inv_setBucket g node.nodeType _
          (List.Nodup.erase c (getNodesByType_nodup h.2.2.1 node.nodeType)) h

/-- Core of the replacement path of `handleAddNode`: tearing down the old object
`c` registered under the new node's id and then running the registration tail
leaves no trace of `c` in any index and emits no `nodeRemove` for it.  `gty` is
the type index after the initial bucket bookkeeping (it differs from
`g.nodeTypeIndex` only at `node.nodeType`). -/
theorem replaceCore_spec (g : GState) (node c : Node) (eGU : Bool)
    (gty : List (Nat × List Node)) (R : Bool × GState × List GEvent)
    (hR : handleRemoveNode
      { sourceLinkIndex := g.sourceLinkIndex, targetLinkIndex := g.targetLinkIndex,
        nodeTypeIndex := alistSet gty node.nodeType
          (((alistGet gty node.nodeType).getD []).erase c),
        nodes := g.nodes, eventCallbacks := g.eventCallbacks } c false false = R)
    (hs : SetsNodup g.sourceLinkIndex) (ht : SetsNodup g.targetLinkIndex)
    (hsym : EdgeSym g) (hcb : g.eventCallbacks.Nodup)
    (htybg : TypeSetsNodup g.nodeTypeIndex)
    (hnd0 : ((alistGet gty node.nodeType).getD []).Nodup)
    (hgk : ∀ k, ¬ k = node.nodeType → alistGet gty k = alistGet g.nodeTypeIndex k)
    (hcid : c.nodeId = node.nodeId)
    (hc : alistGet g.nodes node.nodeId = some c) (hne : ¬ c = node) :
    (registerNode R.2.1 node eGU R.2.2).1 = true ∧
    alistGet (registerNode R.2.1 node eGU R.2.2).2.1.nodes node.nodeId = some node ∧
    getSources (registerNode R.2.1 node eGU R.2.2).2.1 c = [] ∧
    getTargets (registerNode R.2.1 node eGU R.2.2).2.1 c = [] ∧
    (∀ x, c ∉ getSources (registerNode R.2.1 node eGU R.2.2).2.1 x) ∧
    (∀ x, c ∉ getTargets (registerNode R.2.1 node eGU R.2.2).2.1 x) ∧
    c ∉ getNodesByType (registerNode R.2.1 node eGU R.2.2).2.1 c.nodeType ∧
    c ∉ (registerNode R.2.1 node eGU R.2.2).2.1.eventCallbacks ∧
    GEvent.nodeRemove c ∉ (registerNode R.2.1 node eGU R.2.2).2.2 ∧
    GEvent.nodeUpdate node ∈ (registerNode R.2.1 node eGU R.2.2).2.2 := by
  obtain ⟨s1, s2, s3, s4, s5, s6, s7, s8, s9⟩ :=
    handleRemoveNode_spec
      { sourceLinkIndex := g.sourceLinkIndex, targetLinkIndex := g.targetLinkIndex,
        nodeTypeIndex := alistSet gty node.nodeType
          (((alistGet gty node.nodeType).getD []).erase c),
        nodes := g.nodes, eventCallbacks := g.eventCallbacks } c false false hs ht
  rw [hR] at s1 s2 s3 s4 s5 s6 s7 s8 s9
  have hkinds := handleRemoveNode_events_kinds
    { sourceLinkIndex := g.sourceLinkIndex, targetLinkIndex := g.targetLinkIndex,
      nodeTypeIndex := alistSet gty node.nodeType
        (((alistGet gty node.nodeType).getD []).erase c),
      nodes := g.nodes, eventCallbacks := g.eventCallbacks } c false false
  rw [hR] at hkinds
  have hsome : (alistGet g.nodes c.nodeId).isSome = true := by
    rw [hcid, hc]
    rfl
  obtain ⟨r1, r2, r3, r4, r5, r6⟩ := registerNode_spec R.2.1 node eGU R.2.2
  refine ⟨registerNode_fst _ _ _ _, ?_, ?_, ?_, ?_, ?_, ?_, ?_, ?_, ?_⟩
  · rw [r4, alistGet_alistSet_self]
  · unfold getSources
    rw [r1]
    exact s2
  · unfold getTargets
    rw [r2]
    exact s3
  · intro x
    show c ∉ getSources (registerNode R.2.1 node eGU R.2.2).2.1 x
    unfold getSources
    rw [r1]
    by_cases hxc : x = c
    · subst hxc
      rw [show (alistGet R.2.1.sourceLinkIndex x).getD [] = getSources R.2.1 x from rfl, s2]
      simp
    · rw [show (alistGet R.2.1.sourceLinkIndex x).getD [] = getSources R.2.1 x from rfl,
        s4 x hxc]
      split
      · exact List.Nodup.not_mem_erase (getSources_nodup hs x)
      · rename_i hmem
        intro hcmem
        apply hmem
        have hxT : x ∈ getTargets g c := (hsym c x).mpr hcmem
        show x ∈ secondLoopTargets g c
        unfold secondLoopTargets
        split
        · exact (List.mem_erase_of_ne hxc).mpr hxT
        · exact hxT
  · intro x
    show c ∉ getTargets (registerNode R.2.1 node eGU R.2.2).2.1 x
    unfold getTargets
    rw [r2]
    by_cases hxc : x = c
    · subst hxc
      rw [show (alistGet R.2.1.targetLinkIndex x).getD [] = getTargets R.2.1 x from rfl, s3]
      simp
    · rw [show (alistGet R.2.1.targetLinkIndex x).getD [] = getTargets R.2.1 x from rfl,
        s5 x hxc]
      split
      · exact List.Nodup.not_mem_erase (getTargets_nodup ht x)
      · rename_i hmem
        intro hcmem
        exact hmem ((hsym x c).mp hcmem)
  · unfold getNodesByType
    rw [r3]
    by_cases hA : c.nodeType = node.nodeType
    · rw [hA, alistGet_alistSet_self]
      have hgac : alistGet (alistSet gty node.nodeType
          (((alistGet gty node.nodeType).getD []).erase c)) c.nodeType =
          some (((alistGet gty node.nodeType).getD []).erase c) := by
        rw [hA, alistGet_alistSet_self]
      rw [hgac] at s7
      dsimp only at s7
      have hts1 : (alistGet R.2.1.nodeTypeIndex node.nodeType).getD [] =
          (((alistGet gty node.nodeType).getD []).erase c).erase c := by
        rw [s7, ← hA, alistGet_alistSet_self]
        rfl
      rw [hts1]
      intro hmem
      rcases mem_setAdd.mp hmem with h' | h'
      · exact List.Nodup.not_mem_erase (List.Nodup.erase c hnd0) h'
      · exact hne h'
    · rw [alistGet_alistSet_ne _ _ (fun h => hA h.symm)]
      have hgac : alistGet (alistSet gty node.nodeType
          (((alistGet gty node.nodeType).getD []).erase c)) c.nodeType =
          alistGet g.nodeTypeIndex c.nodeType := by
        rw [alistGet_alistSet_ne _ _ (fun h => hA h.symm)]
        exact hgk c.nodeType hA
      rw [hgac] at s7
      cases hgb : alistGet g.nodeTypeIndex c.nodeType with
      | none =>
        rw [hgb] at s7
        dsimp only at s7
        rw [s7, hgac, hgb]
        simp
      | some ts2 =>
        rw [hgb] at s7
        dsimp only at s7
        rw [s7, alistGet_alistSet_self]
        exact List.Nodup.not_mem_erase (htybg _ (alistGet_mem hgb))
  · rw [r5]
    have hcb' : R.2.1.eventCallbacks = g.eventCallbacks.erase c := by
      rw [s8]
      exact if_pos hsome
    rw [hcb']
    split
    · intro hmem
      rcases mem_setAdd.mp hmem with h' | h'
      · exact List.Nodup.not_mem_erase hcb h'
      · exact hne h'
    · exact List.Nodup.not_mem_erase hcb
  · rw [r6]
    intro hmem
    rcases List.mem_append.mp hmem with h' | h'
    · rcases hkinds _ h' with ⟨a, b, hab⟩ | h'' | ⟨_, hfalse⟩
      · exact GEvent.noConfusion hab
      · exact GEvent.noConfusion h''
      · exact Bool.noConfusion hfalse
    · rcases List.mem_cons.mp h' with h'' | h''
      · exact GEvent.noConfusion h''
      · cases heGU : eGU <;> rw [heGU] at h'' <;> simp at h''
  · rw [r6]
    simp

/-- Replacement behavior of `handleAddNode`: adding a different object under an
occupied id tears down the old object completely (edges, type bucket, listener,
registry) without emitting `nodeRemove` for it, and registers the new object. -/
theorem handleAddNode_replace_spec (g : GState) (node c : Node) (eGU : Bool)
    (hc : alistGet g.nodes node.nodeId = some c) (hne : ¬ c = node) (hinv : Inv g) :
    (handleAddNode g node eGU).1 = true ∧
    alistGet (handleAddNode g node eGU).2.1.nodes node.nodeId = some node ∧
    getSources (handleAddNode g node eGU).2.1 c = [] ∧
    getTargets (handleAddNode g node eGU).2.1 c = [] ∧
    (∀ x, c ∉ getSources (handleAddNode g node eGU).2.1 x) ∧
    (∀ x, c ∉ getTargets (handleAddNode g node eGU).2.1 x) ∧
    c ∉ getNodesByType (handleAddNode g node eGU).2.1 c.nodeType ∧
    c ∉ (handleAddNode g node eGU).2.1.eventCallbacks ∧
    GEvent.nodeRemove c ∉ (handleAddNode g node eGU).2.2 ∧
    GEvent.nodeUpdate node ∈ (handleAddNode g node eGU).2.2 := by
  obtain ⟨hs, ht, htybg, hsym, hcnt, htinv, hcb, hrid⟩ := hinv
  have hcid : c.nodeId = node.nodeId := hrid _ (alistGet_mem hc)
  unfold handleAddNode
  cases hty : alistGet g.nodeTypeIndex node.nodeType with
  | none =>
    dsimp only
    rw [hc]
    dsimp only
    rw [if_neg hne]
    exact replaceCore_spec g node c eGU (alistSet g.nodeTypeIndex node.nodeType []) _ rfl
      hs ht hsym hcb htybg (by rw [alistGet_alistSet_self]; simp)
      (fun k hk => alistGet_alistSet_ne _ _ (fun h => hk h.symm)) hcid hc hne
  | some ts =>
    dsimp only
    rw [hc]
    dsimp only
    rw [if_neg hne]
    exact replaceCore_spec g node c eGU g.nodeTypeIndex _ rfl
      hs ht hsym hcb htybg (getNodesByType_nodup htybg node.nodeType)
      (fun k hk => rfl) hcid hc hne

/-! ### Invariant preservation for the public operations -/

theorem mem_getTargets_addTargetLink (g : GState) (p c x y : Node) :
    y ∈ getTargets (addTargetLink g p c).2 x ↔ (y ∈ getTargets g x ∨ (x = p ∧ y = c)) := by
  rw [getTargets_addTargetLink]
  by_cases hx : x = p
  · subst hx
    rw [if_pos rfl]
    by_cases hmem : c ∈ getTargets g x
    · rw [if_pos hmem]
      constructor
      · exact fun h' => Or.inl h'
      · rintro (h' | ⟨_, h'⟩)
        · exact h'
        · subst h'
          exact hmem
    · rw [if_neg hmem]
      simp
  · rw [if_neg hx]
    simp [hx]

theorem mem_getSources_addSourceLink (g : GState) (s p x y : Node) :
    y ∈ getSources (addSourceLink g s p).2 x ↔ (y ∈ getSources g x ∨ (x = p ∧ y = s)) := by
  rw [getSources_addSourceLink]
  by_cases hx : x = p
  · subst hx
    rw [if_pos rfl]
    by_cases hmem : s ∈ getSources g x
    · rw [if_pos hmem]
      constructor
      · exact fun h' => Or.inl h'
      · rintro (h' | ⟨_, h'⟩)
        · exact h'
        · subst h'
          exact hmem
    · rw [if_neg hmem]
      simp
  · rw [if_neg hx]
    simp [hx]

theorem inv_addLinks {g : GState} (s t : Node) (h : Inv g) :
    Inv (addTargetLink (addSourceLink g s t).2 s t).2 := by
  obtain ⟨hs, ht, hty, hsym, hcnt, htinv, hcb, hrid⟩ := h
  have htgt_aSL : ∀ x, getTargets (addSourceLink g s t).2 x = getTargets g x :=
    getTargets_addSourceLink g s t
  have hsrc_aTL : ∀ x, getSources (addTargetLink (addSourceLink g s t).2 s t).2 x =
      getSources (addSourceLink g s t).2 x :=
    getSources_addTargetLink (addSourceLink g s t).2 s t
  refine ⟨?_, ?_, ?_, ?_, ?_, ?_, ?_, ?_⟩
  · rw [(addTargetLink_rest _ _ _).1]
    exact setsNodup_addSourceLink hs
  · apply setsNodup_addTargetLink
    rw [(addSourceLink_rest _ _ _).1]
    exact ht
  · rw [(addTargetLink_rest _ _ _).2.1, (addSourceLink_rest _ _ _).2.1]
    exact hty
  · intro a b
    rw [mem_getTargets_addTargetLink, hsrc_aTL, mem_getSources_addSourceLink, htgt_aSL]
    constructor
    · rintro (h' | ⟨h1, h2⟩)
      · exact Or.inl ((hsym a b).mp h')
      · exact Or.inr ⟨h2, h1⟩
    · rintro (h' | ⟨h1, h2⟩)
      · exact Or.inl ((hsym a b).mpr h')
      · exact Or.inr ⟨h2, h1⟩
  · have hfst : (addSourceLink g s t).1 = (addTargetLink (addSourceLink g s t).2 s t).1 := by
      rw [addSourceLink_fst, addTargetLink_fst, htgt_aSL]
      by_cases hm : s ∈ getSources g t
      · simp [hm, (hsym s t).mpr hm]
      · simp [hm]
        exact fun hh => hm ((hsym s t).mp hh)
    have c1 := getSourceEdgeCount_addSourceLink g s t
    have c2 := getTargetEdgeCount_addTargetLink (addSourceLink g s t).2 s t
    have e1 : getSourceEdgeCount (addTargetLink (addSourceLink g s t).2 s t).2 =
        getSourceEdgeCount (addSourceLink g s t).2 := by
      rw [getSourceEdgeCount_eq, getSourceEdgeCount_eq, (addTargetLink_rest _ _ _).1]
    have e2 : getTargetEdgeCount (addSourceLink g s t).2 = getTargetEdgeCount g := by
      rw [getTargetEdgeCount_eq, getTargetEdgeCount_eq, (addSourceLink_rest _ _ _).1]
    rw [e1, c1, c2, e2, ← hfst, hcnt]
  · intro e he
    rw [(addTargetLink_rest _ _ _).2.1, (addSourceLink_rest _ _ _).2.1]
    rw [(addTargetLink_rest _ _ _).2.2.1, (addSourceLink_rest _ _ _).2.2.1] at he
    exact htinv e he
  · rw [(addTargetLink_rest _ _ _).2.2.2, (addSourceLink_rest _ _ _).2.2.2]
    exact hcb
  · intro e he
    rw [(addTargetLink_rest _ _ _).2.2.1, (addSourceLink_rest _ _ _).2.2.1] at he
    exact hrid e he

theorem addEdge_state (g : GState) (s t : Node) (b : Bool) :
    (addEdge g s t b).2.1 =
      (addTargetLink (addSourceLink (addNode (addNode g s b).2.1 t b).2.1 s t).2 s t).2 := by
  unfold addEdge
  dsimp only
  split <;> rfl

theorem inv_addEdge {g : GState} (s t : Node) (b : Bool) (h : Inv g) :
    Inv (addEdge g s t b).2.1 := by
  rw [addEdge_state]
  exact inv_addLinks s t (inv_handleAddNode t b (inv_handleAddNode s b h))

theorem foldl_triple_inv {α : Type} {P : GState → Prop}
    (step : (Bool × GState × List GEvent) → α → (Bool × GState × List GEvent))
    (hstep : ∀ acc x, P acc.2.1 → P (step acc x).2.1) :
    ∀ (l : List α) (acc : Bool × GState × List GEvent),
      P acc.2.1 → P (l.foldl step acc).2.1 := by
  intro l
  induction l with
  | nil =>
    intro acc h
    exact h
  | cons x xs ih =>
    intro acc h
    exact ih _ (hstep acc x h)

theorem inv_addEdges {g : GState} (ss ts : List Node) (b : Bool) (h : Inv g) :
    Inv (addEdges g ss ts b).2.1 := by
  unfold addEdges
  dsimp only
  split
  · dsimp only
    refine foldl_triple_inv _ (fun acc x hx => ?_) ss (false, g, []) h
    refine foldl_triple_inv _ (fun acc2 y h2 => ?_) ts acc hx
    exact inv_addEdge _ _ _ h2
  · refine foldl_triple_inv _ (fun acc x hx => ?_) ss (false, g, []) h
    refine foldl_triple_inv _ (fun acc2 y h2 => ?_) ts acc hx
    exact inv_addEdge _ _ _ h2

theorem inv_removeEdges {g : GState} (ss ts : List Node) (b : Bool) (h : Inv g) :
    Inv (removeEdges g ss ts b).2.1 := by
  unfold removeEdges
  dsimp only
  split
  · dsimp only
    refine foldl_triple_inv _ (fun acc x hx => ?_) ss (false, g, []) h
    refine foldl_triple_inv _ (fun acc2 y h2 => ?_) ts acc hx
    exact inv_removeEdge _ _ _ h2
  · refine foldl_triple_inv _ (fun acc x hx => ?_) ss (false, g, []) h
    refine foldl_triple_inv _ (fun acc2 y h2 => ?_) ts acc hx
    exact inv_removeEdge _ _ _ h2

theorem inv_emptyGraph : Inv emptyGraph := by
  refine ⟨?_, ?_, ?_, ?_, rfl, ?_, ?_, ?_⟩
  · intro e he
    simp [emptyGraph] at he
  · intro e he
    simp [emptyGraph] at he
  · intro e he
    simp [emptyGraph] at he
  · intro a b
    unfold getTargets getSources emptyGraph alistGet
    simp
  · intro e he
    simp [emptyGraph] at he
  · simp [emptyGraph]
  · intro e he
    simp [emptyGraph] at he

/-- Every reachable `GraphManager` state satisfies the maintained invariants. -/
theorem reachable_inv {g : GState} (h : Reachable g) : Inv g := by
  induction h with
  | empty => exact inv_emptyGraph
  | addNode g n b _ ih => exact inv_handleAddNode n b ih
  | removeNode g n b _ ih => exact inv_handleRemoveNode n true b ih
  | addEdge g s t b _ ih => exact inv_addEdge s t b ih
  | removeEdge g s t b _ ih => exact inv_removeEdge s t b ih
  | addEdges g ss ts b _ ih => exact inv_addEdges ss ts b ih
  | removeEdges g ss ts b _ ih => exact inv_removeEdges ss ts b ih

/-! ### Structure-builder lemmas -/

theorem nodeStruct_neg_depths (g : GState) (fuel : Nat) (td sd : Int) (n : Node)
    (seen : List Node) (hf : 1 ≤ fuel) (htd : td < 0) (hsd : sd < 0) :
    handleNodeStructure g fuel td sd n seen =
      some (GraphStructure.mk n.nodeType n.nodeId n.props none none, setAdd seen n) := by
  cases fuel with
  | zero => omega
  | succ f =>
    simp only [handleNodeStructure]
    rw [if_neg (fun hcon => absurd hcon.1 (by omega))]
    dsimp only
    rw [if_neg (fun hcon => absurd hcon.1 (by omega))]

theorem structListWith_leaves (g : GState) (fuel : Nat) (td sd : Int)
    (hf : 1 ≤ fuel) (htd : td < 0) (hsd : sd < 0) :
    ∀ (l seen : List Node),
      structListWith (handleNodeStructure g fuel td sd) l seen =
        some (l.map (fun c => GraphStructure.mk c.nodeType c.nodeId c.props none none),
          l.foldl setAdd seen) := by
  intro l
  induction l with
  | nil =>
    intro seen
    rfl
  | cons c rest ih =>
    intro seen
    simp only [structListWith]
    rw [nodeStruct_neg_depths g fuel td sd c seen hf htd hsd]
    dsimp only
    rw [ih (setAdd seen c)]
    simp

/-- Evaluation of `getNodeStructure(node, 0, -1)`: the node itself resolves with
`type`/`id`/`props`; since `targetDepth = 0` still satisfies `targetDepth >= 0`,
the direct targets are included (as unexpanded leaves) whenever any non-yet-seen
target exists; `sourceDepth = -1` suppresses the `sources` field entirely. -/
theorem nodeStructure_zero_neg (g : GState) (n : Node) (fuel : Nat) (hf : 2 ≤ fuel) :
    handleNodeStructure g fuel 0 (-1) n [] =
      some (GraphStructure.mk n.nodeType n.nodeId n.props
        (if ((getTargets g n).filter (fun t => decide (t ∉ setAdd ([] : List Node) n))) = []
         then none
         else some (((getTargets g n).filter
            (fun t => decide (t ∉ setAdd ([] : List Node) n))).map
           (fun c => GraphStructure.mk c.nodeType c.nodeId c.props none none)))
        none,
        ((getTargets g n).filter (fun t => decide (t ∉ setAdd ([] : List Node) n))).foldl
          setAdd (setAdd [] n)) := by
  cases fuel with
  | zero => omega
  | succ f =>
    have hf1 : 1 ≤ f := by omega
    simp only [handleNodeStructure]
    by_cases hT : ((getTargets g n).filter (fun t => decide (t ∉ setAdd ([] : List Node) n))) = []
    · rw [if_neg (fun hcon => by rw [hT] at hcon; simp at hcon)]
      dsimp only
      rw [if_neg (fun hcon => absurd hcon.1 (by omega))]
      rw [if_pos hT, hT]
      simp
    · rw [if_pos ⟨le_refl (0 : Int), List.length_pos.mpr hT⟩]
      rw [structListWith_leaves g f (0 - 1) (-1) hf1 (by omega) (by omega)]
      dsimp only
      rw [if_neg (fun hcon => absurd hcon.1 (by omega))]
      rw [if_neg hT]

theorem structListWith_seen_mono {σ : Type}
    (f : Node → List Node → Option (σ × List Node))
    (hf : ∀ n seen r, f n seen = some r → ∀ x ∈ seen, x ∈ r.2) :
    ∀ (l seen : List Node) (r : List σ × List Node),
      structListWith f l seen = some r → ∀ x ∈ seen, x ∈ r.2 := by
  intro l
  induction l with
  | nil =>
    intro seen r h x hx
    simp only [structListWith] at h
    cases h
    exact hx
  | cons c rest ih =>
    intro seen r h x hx
    simp only [structListWith] at h
    cases h1 : f c seen with
    | none =>
      rw [h1] at h
      exact Option.noConfusion h
    | some r1 =>
      obtain ⟨t1, s1⟩ := r1
      rw [h1] at h
      dsimp only at h
      cases h2 : structListWith f rest s1 with
      | none =>
        rw [h2] at h
        exact Option.noConfusion h
      | some r2 =>
        obtain ⟨ts2, s2⟩ := r2
        rw [h2] at h
        dsimp only at h
        cases h
        exact ih s1 (ts2, s2) h2 x (hf c seen (t1, s1) h1 x hx)

theorem edgeStructAux_seen_mono (g : GState) :
    ∀ (fuel : Nat) (n : Node) (seen : List Node) (r : GraphEdgeStructure × List Node),
      handleEdgeStructure g fuel n seen = some r → ∀ x ∈ seen, x ∈ r.2 := by
  intro fuel
  induction fuel with
  | zero =>
    intro n seen r h
    simp only [handleEdgeStructure] at h
    exact Option.noConfusion h
  | succ f ih =>
    intro n seen r h x hx
    simp only [handleEdgeStructure] at h
    cases h1 : structListWith (handleEdgeStructure g f)
        ((getTargets g n).filter (fun t => decide (t ∉ setAdd seen n))) (setAdd seen n) with
    | none =>
      rw [h1] at h
      exact Option.noConfusion h
    | some r1 =>
      obtain ⟨ts1, s1⟩ := r1
      rw [h1] at h
      dsimp only at h
      cases h2 : structListWith (handleEdgeStructure g f)
          ((getSources g n).filter (fun s => decide (s ∉ setAdd seen n))) s1 with
      | none =>
        rw [h2] at h
        exact Option.noConfusion h
      | some r2 =>
        obtain ⟨ss2, s2⟩ := r2
        rw [h2] at h
        dsimp only at h
        cases h
        have hx1 : x ∈ setAdd seen n := mem_setAdd.mpr (Or.inl hx)
        have hx2 : x ∈ s1 := structListWith_seen_mono _ (ih) _ _ (ts1, s1) h1 x hx1
        exact structListWith_seen_mono _ (ih) _ _ (ss2, s2) h2 x hx2

theorem structListWith_total (g : GState) (U : Finset Node) (f : Nat)
    (IH : ∀ (n : Node) (seen : List Node),
      U.card + 1 ≤ f + ((setAdd seen n).toFinset ∩ U).card →
      (handleEdgeStructure g f n seen).isSome = true) :
    ∀ (l seen base : List Node),
      (∀ c ∈ l, c ∈ U ∧ c ∉ base) →
      (∀ x ∈ base, x ∈ seen) →
      U.card + 1 ≤ (f + 1) + (base.toFinset ∩ U).card →
      (structListWith (handleEdgeStructure g f) l seen).isSome = true := by
  intro l
  induction l with
  | nil =>
    intro seen base _ _ _
    rfl
  | cons c rest ih =>
    intro seen base hl hbs hb
    obtain ⟨hcU, hcB⟩ := hl c (List.mem_cons_self c rest)
    have hsub : insert c base.toFinset ⊆ (setAdd seen c).toFinset := by
      intro y hy
      rcases Finset.mem_insert.mp hy with hy | hy
      · subst hy
        rw [List.mem_toFinset]
        exact mem_setAdd.mpr (Or.inr rfl)
      · rw [List.mem_toFinset] at hy ⊢
        exact mem_setAdd.mpr (Or.inl (hbs y hy))
    have hcard : (base.toFinset ∩ U).card + 1 ≤ ((setAdd seen c).toFinset ∩ U).card := by
      have h1 : insert c (base.toFinset ∩ U) ⊆ (setAdd seen c).toFinset ∩ U := by
        intro y hy
        rcases Finset.mem_insert.mp hy with hy | hy
        · rw [hy]
          exact Finset.mem_inter.mpr ⟨hsub (Finset.mem_insert_self c _), hcU⟩
        · obtain ⟨hy1, hy2⟩ := Finset.mem_inter.mp hy
          exact Finset.mem_inter.mpr ⟨hsub (Finset.mem_insert_of_mem hy1), hy2⟩
      have h2 : (insert c (base.toFinset ∩ U)).card = (base.toFinset ∩ U).card + 1 := by
        rw [Finset.card_insert_of_not_mem]
        intro hy
        exact hcB (List.mem_toFinset.mp (Finset.mem_inter.mp hy).1)
      calc (base.toFinset ∩ U).card + 1 = (insert c (base.toFinset ∩ U)).card := h2.symm
        _ ≤ _ := Finset.card_le_card h1
    have hchild : (handleEdgeStructure g f c seen).isSome = true := by
      apply IH
      omega
    simp only [structListWith]
    cases h1 : handleEdgeStructure g f c seen with
    | none =>
      rw [h1] at hchild
      exact absurd hchild (by simp)
    | some r1 =>
      obtain ⟨t1, s1⟩ := r1
      dsimp only
      have hmono := edgeStructAux_seen_mono g f c seen (t1, s1) h1
      have hrest := ih s1 base (fun c2 hc2 => hl c2 (List.mem_cons_of_mem c hc2))
        (fun x hx => hmono x (hbs x hx)) hb
      cases h2 : structListWith (handleEdgeStructure g f) rest s1 with
      | none =>
        rw [h2] at hrest
        exact absurd hrest (by simp)
      | some r2 =>
        obtain ⟨ts2, s2⟩ := r2
        rfl

theorem edgeStructAux_total (g : GState) (U : Finset Node)
    (hclT : ∀ x c, c ∈ getTargets g x → c ∈ U)
    (hclS : ∀ x c, c ∈ getSources g x → c ∈ U) :
    ∀ (fuel : Nat) (n : Node) (seen : List Node),
      U.card + 1 ≤ fuel + ((setAdd seen n).toFinset ∩ U).card →
      (handleEdgeStructure g fuel n seen).isSome = true := by
  intro fuel
  induction fuel with
  | zero =>
    intro n seen hb
    exfalso
    have hle : ((setAdd seen n).toFinset ∩ U).card ≤ U.card :=
      Finset.card_le_card Finset.inter_subset_right
    omega
  | succ f ih =>
    intro n seen hb
    simp only [handleEdgeStructure]
    have ht1 : (structListWith (handleEdgeStructure g f)
        ((getTargets g n).filter (fun t => decide (t ∉ setAdd seen n)))
        (setAdd seen n)).isSome = true := by
      apply structListWith_total g U f ih _ _ (setAdd seen n) _ (fun x hx => hx) hb
      intro c hc
      have hmf := List.mem_filter.mp hc
      refine ⟨hclT n c hmf.1, ?_⟩
      have := hmf.2
      simpa using this
    cases h1 : structListWith (handleEdgeStructure g f)
        ((getTargets g n).filter (fun t => decide (t ∉ setAdd seen n))) (setAdd seen n) with
    | none =>
      rw [h1] at ht1
      exact absurd ht1 (by simp)
    | some r1 =>
      obtain ⟨ts1, s1⟩ := r1
      dsimp only
      have hmonoL := structListWith_seen_mono _ (edgeStructAux_seen_mono g f) _ _ (ts1, s1) h1
      have ht2 : (structListWith (handleEdgeStructure g f)
          ((getSources g n).filter (fun s => decide (s ∉ setAdd seen n))) s1).isSome = true := by
        apply structListWith_total g U f ih _ s1 (setAdd seen n) _
          (fun x hx => hmonoL x hx) hb
        intro c hc
        have hmf := List.mem_filter.mp hc
        refine ⟨hclS n c hmf.1, ?_⟩
        have := hmf.2
        simpa using this
      cases h2 : structListWith (handleEdgeStructure g f)
          ((getSources g n).filter (fun s => decide (s ∉ setAdd seen n))) s1 with
      | none =>
        rw [h2] at ht2
        exact absurd ht2 (by simp)
      | some r2 =>
        obtain ⟨ss2, s2⟩ := r2
        rfl

theorem properIds_def (t : GraphEdgeStructure) : structIds t = t.id :: properIds t := by
  cases t
  rfl

theorem mem_foldr_mentioned_acc {idx : List (Node × List Node)} {acc : List Node} {c : Node}
    (h : c ∈ acc) : c ∈ idx.foldr (fun e a => e.1 :: (e.2 ++ a)) acc := by
  induction idx with
  | nil => exact h
  | cons e rest ih =>
    simp only [List.foldr_cons, List.mem_cons, List.mem_append]
    exact Or.inr (Or.inr ih)

theorem mem_mentioned_of_get {idx : List (Node × List Node)} {x c : Node} {acc : List Node}
    (h : c ∈ (alistGet idx x).getD []) :
    c ∈ idx.foldr (fun e a => e.1 :: (e.2 ++ a)) acc := by
  induction idx with
  | nil => simp [alistGet] at h
  | cons e rest ih =>
    obtain ⟨k, v⟩ := e
    by_cases hk : k = x
    · subst hk
      simp only [alistGet, if_pos rfl, Option.getD_some] at h
      simp only [List.foldr_cons, List.mem_cons, List.mem_append]
      exact Or.inr (Or.inl h)
    · simp only [alistGet, if_neg hk] at h
      simp only [List.foldr_cons, List.mem_cons, List.mem_append]
      exact Or.inr (Or.inr (ih h))

theorem mem_mentionedNodes_of_targets {g : GState} {x c : Node} (h : c ∈ getTargets g x) :
    c ∈ mentionedNodes g := by
  unfold mentionedNodes
  exact mem_mentioned_of_get h

theorem mem_mentionedNodes_of_sources {g : GState} {x c : Node} (h : c ∈ getSources g x) :
    c ∈ mentionedNodes g := by
  unfold mentionedNodes
  exact mem_foldr_mentioned_acc (mem_mentioned_of_get h)

theorem mem_structIdsOpt_if {c : Prop} [Decidable c] {l : List GraphEdgeStructure} {s : String}
    (h : s ∈ structIdsOpt (if c then some l else none)) : s ∈ structIdsList l := by
  by_cases hc : c
  · rw [if_pos hc] at h
    exact h
  · rw [if_neg hc] at h
    exact absurd h (List.not_mem_nil s)

theorem structListWith_ids (g : GState) (f : Nat)
    (IH : ∀ (n : Node) (seen : List Node) (t : GraphEdgeStructure) (seen' : List Node),
      handleEdgeStructure g f n seen = some (t, seen') →
      t.id = n.nodeId ∧ ∀ s ∈ properIds t,
        ∃ c : Node, c.nodeId = s ∧ c ∉ setAdd seen n ∧ c ∈ mentionedNodes g) :
    ∀ (l seen base : List Node) (ts : List GraphEdgeStructure) (seen' : List Node),
      structListWith (handleEdgeStructure g f) l seen = some (ts, seen') →
      (∀ c ∈ l, c ∉ base ∧ c ∈ mentionedNodes g) →
      (∀ x ∈ base, x ∈ seen) →
      ∀ s ∈ structIdsList ts,
        ∃ c : Node, c.nodeId = s ∧ c ∉ base ∧ c ∈ mentionedNodes g := by
  intro l
  induction l with
  | nil =>
    intro seen base ts seen' h _ _ s hs
    simp only [structListWith, Option.some.injEq, Prod.mk.injEq] at h
    rw [← h.1] at hs
    simp [structIdsList] at hs
  | cons c rest ih =>
    intro seen base ts seen' h hl hbs s hs
    simp only [structListWith] at h
    cases h1 : handleEdgeStructure g f c seen with
    | none =>
      rw [h1] at h
      exact Option.noConfusion h
    | some r1 =>
      obtain ⟨t1, s1⟩ := r1
      rw [h1] at h
      dsimp only at h
      cases h2 : structListWith (handleEdgeStructure g f) rest s1 with
      | none =>
        rw [h2] at h
        exact Option.noConfusion h
      | some r2 =>
        obtain ⟨ts2, s2⟩ := r2
        rw [h2] at h
        dsimp only at h
        have hts : ts = t1 :: ts2 := by
          have := congrArg (fun o => (Option.getD o ([], [])).1) h
          simpa using this.symm
        rw [hts] at hs
        simp only [structIdsList, List.mem_append] at hs
        rcases hs with hs | hs
        · rw [properIds_def] at hs
          obtain ⟨hid, hprop⟩ := IH c seen t1 s1 h1
          rcases List.mem_cons.mp hs with hs | hs
          · refine ⟨c, ?_, (hl c (List.mem_cons_self c rest)).1,
              (hl c (List.mem_cons_self c rest)).2⟩
            rw [hs, hid]
          · obtain ⟨c2, hc1, hc2, hc3⟩ := hprop s hs
            refine ⟨c2, hc1, ?_, hc3⟩
            intro hcB
            exact hc2 (mem_setAdd.mpr (Or.inl (hbs c2 hcB)))
        · have hmono := edgeStructAux_seen_mono g f c seen (t1, s1) h1
          exact ih s1 base ts2 s2 h2 (fun c2 hc2 => hl c2 (List.mem_cons_of_mem c hc2))
            (fun x hx => hmono x (hbs x hx)) s hs

theorem edgeStructAux_ids (g : GState) :
    ∀ (fuel : Nat) (n : Node) (seen : List Node) (t : GraphEdgeStructure)
      (seen' : List Node),
      handleEdgeStructure g fuel n seen = some (t, seen') →
      t.id = n.nodeId ∧ ∀ s ∈ properIds t,
        ∃ c : Node, c.nodeId = s ∧ c ∉ setAdd seen n ∧ c ∈ mentionedNodes g := by
  intro fuel
  induction fuel with
  | zero =>
    intro n seen t seen' h
    exact Option.noConfusion h
  | succ f ih =>
    intro n seen t seen' h
    simp only [handleEdgeStructure] at h
    cases h1 : structListWith (handleEdgeStructure g f)
        ((getTargets g n).filter (fun t => decide (t ∉ setAdd seen n))) (setAdd seen n) with
    | none =>
      rw [h1] at h
      exact Option.noConfusion h
    | some r1 =>
      obtain ⟨ts1, s1⟩ := r1
      rw [h1] at h
      dsimp only at h
      cases h2 : structListWith (handleEdgeStructure g f)
          ((getSources g n).filter (fun s => decide (s ∉ setAdd seen n))) s1 with
      | none =>
        rw [h2] at h
        exact Option.noConfusion h
      | some r2 =>
        obtain ⟨ss2, s2⟩ := r2
        rw [h2] at h
        dsimp only at h
        have ht : t = GraphEdgeStructure.mk n.nodeId
            (if ((getTargets g n).filter
                (fun t => decide (t ∉ setAdd seen n))).length > 0 then some ts1 else none)
            (if ((getSources g n).filter
                (fun s => decide (s ∉ setAdd seen n))).length > 0 then some ss2 else none) := by
          have := congrArg (fun o => (Option.getD o (GraphEdgeStructure.mk "" none none, [])).1) h
          simpa using this.symm
        subst ht
        refine ⟨rfl, ?_⟩
        intro s hs
        have hmonoL := structListWith_seen_mono _ (edgeStructAux_seen_mono g f) _ _ (ts1, s1) h1
        rcases List.mem_append.mp hs with hs | hs
        · exact structListWith_ids g f ih _ _ (setAdd seen n) ts1 s1 h1
            (fun c hc => by
              have hmf := List.mem_filter.mp hc
              refine ⟨by simpa using hmf.2, mem_mentionedNodes_of_targets hmf.1⟩)
            (fun x hx => hx) s (mem_structIdsOpt_if hs)
        · exact structListWith_ids g f ih _ _ (setAdd seen n) ss2 s2 h2
            (fun c hc => by
              have hmf := List.mem_filter.mp hc
              refine ⟨by simpa using hmf.2, mem_mentionedNodes_of_sources hmf.1⟩)
            (fun x hx => hmonoL x hx) s (mem_structIdsOpt_if hs)

theorem registerNode_no_edgeAdd (g1 : GState) (node : Node) (eGU : Bool)
    (evs : List GEvent) (h : ∀ a b, GEvent.edgeAdd a b ∉ evs) (a b : Node) :
    GEvent.edgeAdd a b ∉ (registerNode g1 node eGU evs).2.2 := by
  rw [(registerNode_spec g1 node eGU evs).2.2.2.2.2]
  intro hmem
  rcases List.mem_append.mp hmem with hm | hm
  · exact h a b hm
  · rcases List.mem_cons.mp hm with hm | hm
    · exact GEvent.noConfusion hm
    · split at hm <;> simp at hm

theorem handleAddNode_no_edgeAdd (g : GState) (node : Node) (eGU : Bool) (a b : Node) :
    GEvent.edgeAdd a b ∉ (handleAddNode g node eGU).2.2 := by
  unfold handleAddNode
  cases hty : alistGet g.nodeTypeIndex node.nodeType <;>
    dsimp only <;>
    cases hreg : alistGet g.nodes node.nodeId <;>
    dsimp only
  case none.none =>
    exact registerNode_no_edgeAdd _ node eGU [] (fun a' b' => List.not_mem_nil _) a b
  case none.some c =>
    by_cases hc : c = node
    · rw [if_pos hc]
      exact List.not_mem_nil _
    · rw [if_neg hc]
      refine registerNode_no_edgeAdd _ node eGU _ (fun a' b' hm => ?_) a b
      rcases handleRemoveNode_events_kinds _ c false false _ hm with ⟨x, y, hx⟩ | hx | ⟨hx, _⟩ <;>
        exact GEvent.noConfusion hx
  case some.none =>
    exact registerNode_no_edgeAdd _ node eGU [] (fun a' b' => List.not_mem_nil _) a b
  case some.some ts c =>
    by_cases hc : c = node
    · rw [if_pos hc]
      exact List.not_mem_nil _
    · rw [if_neg hc]
      refine registerNode_no_edgeAdd _ node eGU _ (fun a' b' hm => ?_) a b
      rcases handleRemoveNode_events_kinds _ c false false _ hm with ⟨x, y, hx⟩ | hx | ⟨hx, _⟩ <;>
        exact GEvent.noConfusion hx

theorem countP_edgeRemove_flatMap (h : Node → Node × Node) (l : List Node) :
    (l.flatMap (fun s => [GEvent.edgeRemove (h s).1 (h s).2, GEvent.graphUpdate])).countP
      isEdgeRemove = l.length := by
  induction l with
  | nil => rfl
  | cons x xs ih =>
    rw [List.flatMap_cons, List.countP_append, ih]
    have h2 : List.countP isEdgeRemove
        [GEvent.edgeRemove (h x).1 (h x).2, GEvent.graphUpdate] = 1 := rfl
    rw [h2]
    simp [List.length_cons]
    omega

theorem handleRemoveNode_clears {g : GState} (n : Node) (eNR eGU : Bool) (hinv : Inv g) :
    (∀ x, n ∉ getSources (handleRemoveNode g n eNR eGU).2.1 x) ∧
    (∀ x, n ∉ getTargets (handleRemoveNode g n eNR eGU).2.1 x) := by
  obtain ⟨hs, ht, htybg, hsym, hcnt, htinv, hcb, hrid⟩ := hinv
  obtain ⟨s1, s2, s3, s4, s5, s6, s7, s8, s9⟩ := handleRemoveNode_spec g n eNR eGU hs ht
  constructor
  · intro x
    by_cases hx : x = n
    · rw [hx, s2]
      exact List.not_mem_nil n
    · rw [s4 x hx]
      split
      · exact List.Nodup.not_mem_erase (getSources_nodup hs x)
      · rename_i hmem
        intro hcmem
        apply hmem
        have hxT : x ∈ getTargets g n := (hsym n x).mpr hcmem
        show x ∈ secondLoopTargets g n
        unfold secondLoopTargets
        split
        · exact (List.mem_erase_of_ne hx).mpr hxT
        · exact hxT
  · intro x
    by_cases hx : x = n
    · rw [hx, s3]
      exact List.not_mem_nil n
    · rw [s5 x hx]
      split
      · exact List.Nodup.not_mem_erase (getTargets_nodup ht x)
      · rename_i hmem
        intro hcmem
        exact hmem ((hsym x n).mp hcmem)

theorem countP_edgeRemove_flatMap_left (n : Node) (l : List Node) :
    (l.flatMap (fun s => [GEvent.edgeRemove s n, GEvent.graphUpdate])).countP
      isEdgeRemove = l.length := by
  have h := countP_edgeRemove_flatMap (fun s => (s, n)) l
  simpa using h

theorem countP_edgeRemove_flatMap_right (n : Node) (l : List Node) :
    (l.flatMap (fun t => [GEvent.edgeRemove n t, GEvent.graphUpdate])).countP
      isEdgeRemove = l.length := by
  have h := countP_edgeRemove_flatMap (fun t => (n, t)) l
  simpa using h

theorem handleAddNode_bucket (g : GState) (node : Node) (eGU : Bool) :
    (alistGet (handleAddNode g node eGU).2.1.nodeTypeIndex node.nodeType).isSome = true := by
  unfold handleAddNode
  cases htyx : alistGet g.nodeTypeIndex node.nodeType <;> dsimp only <;>
    cases hreg : alistGet g.nodes node.nodeId <;> dsimp only
  case none.none =>
    rw [(registerNode_spec _ node eGU []).2.2.1, alistGet_alistSet_self]
    rfl
  case none.some c =>
    by_cases hc : c = node
    · rw [if_pos hc]
      dsimp only
      rw [alistGet_alistSet_self]
      rfl
    · rw [if_neg hc]
      rw [(registerNode_spec _ node eGU _).2.2.1, alistGet_alistSet_self]
      rfl
  case some.none =>
    rw [(registerNode_spec _ node eGU []).2.2.1, alistGet_alistSet_self]
    rfl
  case some.some ts c =>
    by_cases hc : c = node
    · rw [if_pos hc]
      dsimp only
      rw [htyx]
      rfl
    · rw [if_neg hc]
      rw [(registerNode_spec _ node eGU _).2.2.1, alistGet_alistSet_self]
      rfl

/-! ### The claims -/

/-- Claim C1: starting from an empty `GraphManager`, after every sequence of the
public mutation operations, `B ∈ targets(A) ↔ A ∈ sources(B)` for all nodes and
`getSourceEdgeCount()` equals `getTargetEdgeCount()`. -/
theorem claim_C1 (g : GState) (h : Reachable g) :
    (∀ a b : Node, b ∈ getTargets g a ↔ a ∈ getSources g b) ∧
    getSourceEdgeCount g = getTargetEdgeCount g := by
  obtain ⟨-, -, -, hsym, hcnt, -, -, -⟩ := reachable_inv h
  exact ⟨hsym, hcnt⟩

/-- Witness for C1 at the concrete reachable state `a → b`. -/
theorem claim_C1_witness :
    Reachable gAB ∧
    ((∀ a b : Node, b ∈ getTargets gAB a ↔ a ∈ getSources gAB b) ∧
      getSourceEdgeCount gAB = getTargetEdgeCount gAB) :=
  ⟨Reachable.addEdge emptyGraph nodeA nodeB true Reachable.empty,
   claim_C1 gAB (Reachable.addEdge emptyGraph nodeA nodeB true Reachable.empty)⟩

/-- Claim C2 counterexample: in the state with only `nodeA` registered,
`removeNode(nodeA2)` — a different object sharing the id "a" that was never
itself registered — still returns `true`, because `handleRemoveNode` checks and
deletes the registry entry by id (`this.nodes.delete(node.getNodeId())`). -/
theorem claim_C2_counterexample :
    (∀ e ∈ gOnlyA.nodes, e.2 ≠ nodeA2) ∧ (removeNode gOnlyA nodeA2 true).1 = true := by
  decide

/-- Claim C2 (amended): `removeNode(node)` returns true iff the registry holds
*some* entry under `node`'s id at call time — not necessarily the object itself. -/
theorem claim_C2 (g : GState) (node : Node) (b : Bool)
    (hs : SetsNodup g.sourceLinkIndex) (ht : SetsNodup g.targetLinkIndex) :
    (removeNode g node b).1 = (getNodeById g node.nodeId).isSome :=
  (handleRemoveNode_spec g node true b hs ht).1

/-- Witness for C2: `removeNode(nodeA2)` on the one-node state. -/
theorem claim_C2_witness :
    SetsNodup gOnlyA.sourceLinkIndex ∧ SetsNodup gOnlyA.targetLinkIndex ∧
    (removeNode gOnlyA nodeA2 true).1 = (getNodeById gOnlyA nodeA2.nodeId).isSome :=
  ⟨by unfold SetsNodup; decide, by unfold SetsNodup; decide,
   claim_C2 gOnlyA nodeA2 true (by unfold SetsNodup; decide) (by unfold SetsNodup; decide)⟩

/-- Claim C3 counterexample: `nodeN` in the chain `a → n → c` is registered with
one outgoing and one incoming edge, yet `getNodeStructure(n, 0, -1)` DOES carry
a `targets` field — `targetDepth = 0` still passes the `targetDepth >= 0` guard
and expands one level of targets; only the `sources` field is absent. -/
theorem claim_C3_counterexample :
    getNodeById gChain nodeN.nodeId = some nodeN ∧
    getTargets gChain nodeN ≠ [] ∧ getSources gChain nodeN ≠ [] ∧
    (getNodeStructure gChain 9 nodeN 0 (-1)).map
      (fun r => (r.1.targets.isSome, r.1.sources.isSome)) = some (true, false) :=
  ⟨by decide, by decide, by decide, rfl⟩

/-- Claim C3 (amended): `getNodeStructure(node, 0, -1)` resolves the top-level
`type`/`id`/`props` and has no `sources` field, but whenever the node has an
unvisited direct target the snapshot still carries a `targets` field holding one
level of unexpanded leaf targets. -/
theorem claim_C3 (g : GState) (n : Node) (fuel : Nat) (hf : 2 ≤ fuel)
    (hT : (getTargets g n).filter (fun t => decide (t ∉ setAdd ([] : List Node) n)) ≠ []) :
    (getNodeStructure g fuel n 0 (-1)).map
      (fun r => (r.1.type, r.1.id, r.1.props, r.1.targets.isSome, r.1.sources.isSome)) =
      some (n.nodeType, n.nodeId, n.props, true, false) := by
  unfold getNodeStructure
  rw [nodeStructure_zero_neg g n fuel hf, if_neg hT]
  rfl

/-- Witness for C3 at `nodeN` in the chain `a → n → c` with fuel 2. -/
theorem claim_C3_witness :
    (2 ≤ 2 ∧
      (getTargets gChain nodeN).filter
        (fun t => decide (t ∉ setAdd ([] : List Node) nodeN)) ≠ []) ∧
    (getNodeStructure gChain 2 nodeN 0 (-1)).map
      (fun r => (r.1.type, r.1.id, r.1.props, r.1.targets.isSome, r.1.sources.isSome)) =
      some (nodeN.nodeType, nodeN.nodeId, nodeN.props, true, false) :=
  ⟨⟨by decide, by decide⟩, claim_C3 gChain nodeN 2 (by decide) (by decide)⟩

/-- Claim C4 counterexample: in the reachable state `gStale` the link `a → b`
still exists in both adjacency indices while the id "a" is unregistered;
`addEdge(nodeA, nodeB)` then emits `edgeAdd` although the link itself was not
newly created — re-registering the endpoint alone sufficed. -/
theorem claim_C4_counterexample :
    nodeB ∈ getTargets gStale nodeA ∧ nodeA ∈ getSources gStale nodeB ∧
    (addEdge gStale nodeA nodeB true).1 = true ∧
    GEvent.edgeAdd nodeA nodeB ∈ (addEdge gStale nodeA nodeB true).2.2 := by
  decide

/-- Claim C4 (amended): `addEdge(source, target)` returns true iff any of its
four sub-operations changed something (either endpoint newly registered, or the
link newly added to either adjacency index), and it emits `edgeAdd` exactly once
iff it returns true — hence also when only an endpoint was (re-)registered while
the link already existed. -/
theorem claim_C4 (g : GState) (s t : Node) (b : Bool) :
    (addEdge g s t b).1 =
      ((addNode g s b).1 || (addNode (addNode g s b).2.1 t b).1 ||
        (addSourceLink (addNode (addNode g s b).2.1 t b).2.1 s t).1 ||
        (addTargetLink (addSourceLink (addNode (addNode g s b).2.1 t b).2.1 s t).2 s t).1) ∧
    (addEdge g s t b).2.2.count (GEvent.edgeAdd s t) =
      (if (addEdge g s t b).1 = true then 1 else 0) := by
  have h1 : (addNode g s b).2.2.count (GEvent.edgeAdd s t) = 0 :=
    List.count_eq_zero.mpr (handleAddNode_no_edgeAdd g s b s t)
  have h2 : (addNode (addNode g s b).2.1 t b).2.2.count (GEvent.edgeAdd s t) = 0 :=
    List.count_eq_zero.mpr (handleAddNode_no_edgeAdd (addNode g s b).2.1 t b s t)
  unfold addEdge
  dsimp only
  split <;> rename_i hAdd
  · refine ⟨hAdd.symm, ?_⟩
    dsimp only
    rw [if_pos rfl]
    cases b <;> simp [List.count_append, List.count_cons, h1, h2]
  · simp only [Bool.not_eq_true] at hAdd
    refine ⟨hAdd.symm, ?_⟩
    dsimp only
    rw [if_neg (by simp)]
    simp [List.count_append, h1, h2]

/-- Claim C5: calling `addNode(n2)` while the registry maps n2's id to a
different object n1 returns true; n1 is fully torn down (it survives in no
adjacency set, not in its type bucket, not in the listener registry) with no
`nodeRemove` event for it; afterwards `getNodeById` returns n2. -/
theorem claim_C5 (g : GState) (n2 n1 : Node) (b : Bool)
    (hreg : getNodeById g n2.nodeId = some n1) (hne : n1 ≠ n2) (hr : Reachable g) :
    (addNode g n2 b).1 = true ∧
    getNodeById (addNode g n2 b).2.1 n2.nodeId = some n2 ∧
    (∀ x, n1 ∉ getSources (addNode g n2 b).2.1 x) ∧
    (∀ x, n1 ∉ getTargets (addNode g n2 b).2.1 x) ∧
    n1 ∉ getNodesByType (addNode g n2 b).2.1 n1.nodeType ∧
    n1 ∉ (addNode g n2 b).2.1.eventCallbacks ∧
    GEvent.nodeRemove n1 ∉ (addNode g n2 b).2.2 := by
  obtain ⟨f1, f2, f3, f4, f5, f6, f7, f8, f9, f10⟩ :=
    handleAddNode_replace_spec g n2 n1 b hreg hne (reachable_inv hr)
  exact ⟨f1, f2, f5, f6, f7, f8, f9⟩

/-- Witness for C5: adding `nodeA2` over the registered `nodeA`. -/
theorem claim_C5_witness :
    getNodeById gOnlyA nodeA2.nodeId = some nodeA ∧ nodeA ≠ nodeA2 ∧
    (addNode gOnlyA nodeA2 true).1 = true ∧
    getNodeById (addNode gOnlyA nodeA2 true).2.1 nodeA2.nodeId = some nodeA2 ∧
    nodeA ∉ getSources (addNode gOnlyA nodeA2 true).2.1 nodeB ∧
    nodeA ∉ (addNode gOnlyA nodeA2 true).2.1.eventCallbacks ∧
    GEvent.nodeRemove nodeA ∉ (addNode gOnlyA nodeA2 true).2.2 := by
  have h := claim_C5 gOnlyA nodeA2 nodeA true (by decide) (by decide)
    (Reachable.addNode emptyGraph nodeA true Reachable.empty)
  exact ⟨by decide, by decide, h.1, h.2.1, h.2.2.1 nodeB, h.2.2.2.2.2.1, h.2.2.2.2.2.2⟩

/-- Claim C6 counterexample: for the self-loop `a → a` the removed node has
k = 1 outgoing and m = 1 incoming edges, so the claim demands k + m = 2
`edgeRemove` events, but exactly one is emitted: the first loop already removes
the self-edge, and the second loop sees the live-updated target set. -/
theorem claim_C6_counterexample :
    nodeA ∈ getTargets gLoop nodeA ∧ nodeA ∈ getSources gLoop nodeA ∧
    (getTargets gLoop nodeA).length + (getSources gLoop nodeA).length = 2 ∧
    (removeNode gLoop nodeA true).2.2.countP isEdgeRemove = 1 := by
  decide

/-- Claim C6 (amended): removing a registered node first tears down the m
incoming edges, then the outgoing edges as seen *after* that first pass
(`secondLoopTargets`; a self-loop is gone by then), emitting one `edgeRemove`
per removed edge — m + |secondLoopTargets| many, i.e. k + m except that a
self-loop is counted once — all before the single `nodeRemove` event; every
edge touching the node is indeed removed from both adjacency indices. -/
theorem claim_C6 (g : GState) (n : Node) (b : Bool) (hinv : Inv g)
    (hreg : (getNodeById g n.nodeId).isSome = true) :
    (removeNode g n b).1 = true ∧
    (removeNode g n b).2.2 =
      (getSources g n).flatMap (fun s => [GEvent.edgeRemove s n, GEvent.graphUpdate])
        ++ (secondLoopTargets g n).flatMap
            (fun t => [GEvent.edgeRemove n t, GEvent.graphUpdate])
        ++ GEvent.nodeRemove n :: (if b then [GEvent.graphUpdate] else []) ∧
    (removeNode g n b).2.2.countP isEdgeRemove =
      (getSources g n).length + (secondLoopTargets g n).length ∧
    (secondLoopTargets g n).length =
      (if n ∈ getSources g n then (getTargets g n).length - 1
       else (getTargets g n).length) ∧
    getSources (removeNode g n b).2.1 n = [] ∧
    getTargets (removeNode g n b).2.1 n = [] ∧
    (∀ x, n ∉ getSources (removeNode g n b).2.1 x) ∧
    (∀ x, n ∉ getTargets (removeNode g n b).2.1 x) := by
  unfold removeNode
  obtain ⟨c1, c2⟩ := handleRemoveNode_clears n true b hinv
  obtain ⟨hs, ht, htybg, hsym, hcnt, htinv, hcb, hrid⟩ := hinv
  obtain ⟨s1, s2, s3, s4, s5, s6, s7, s8, s9⟩ := handleRemoveNode_spec g n true b hs ht
  have hregA : (alistGet g.nodes n.nodeId).isSome = true := hreg
  have hev : (handleRemoveNode g n true b).2.2 =
      (getSources g n).flatMap (fun s => [GEvent.edgeRemove s n, GEvent.graphUpdate])
        ++ (secondLoopTargets g n).flatMap
            (fun t => [GEvent.edgeRemove n t, GEvent.graphUpdate])
        ++ GEvent.nodeRemove n :: (if b then [GEvent.graphUpdate] else []) := by
    rw [s9, if_pos hregA]
    simp
  have hcount : (handleRemoveNode g n true b).2.2.countP isEdgeRemove =
      (getSources g n).length + (secondLoopTargets g n).length := by
    rw [hev, List.countP_append, List.countP_append,
      countP_edgeRemove_flatMap_left, countP_edgeRemove_flatMap_right]
    have htail : (GEvent.nodeRemove n ::
        (if b then [GEvent.graphUpdate] else [])).countP isEdgeRemove = 0 := by
      cases b <;> rfl
    rw [htail]
    omega
  have hslt : (secondLoopTargets g n).length =
      (if n ∈ getSources g n then (getTargets g n).length - 1
       else (getTargets g n).length) := by
    unfold secondLoopTargets
    by_cases hm : n ∈ getSources g n
    · rw [if_pos hm, if_pos hm]
      exact List.length_erase_of_mem ((hsym n n).mpr hm)
    · rw [if_neg hm, if_neg hm]
  refine ⟨by rw [s1]; exact hregA, hev, hcount, hslt, s2, s3, c1, c2⟩

/-- Witness for C6: removing `nodeB` from the state `a → b`. -/
theorem claim_C6_witness :
    (removeNode gAB nodeB true).1 = true ∧
    (removeNode gAB nodeB true).2.2.countP isEdgeRemove =
      (getSources gAB nodeB).length + (secondLoopTargets gAB nodeB).length ∧
    (secondLoopTargets gAB nodeB).length =
      (if nodeB ∈ getSources gAB nodeB then (getTargets gAB nodeB).length - 1
       else (getTargets gAB nodeB).length) ∧
    getSources (removeNode gAB nodeB true).2.1 nodeB = [] ∧
    getTargets (removeNode gAB nodeB true).2.1 nodeB = [] ∧
    nodeB ∉ getSources (removeNode gAB nodeB true).2.1 nodeA ∧
    nodeB ∉ getTargets (removeNode gAB nodeB true).2.1 nodeA := by
  have h := claim_C6 gAB nodeB true
    (reachable_inv (Reachable.addEdge emptyGraph nodeA nodeB true Reachable.empty))
    (by decide)
  exact ⟨h.1, h.2.2.1, h.2.2.2.1, h.2.2.2.2.1, h.2.2.2.2.2.1,
    h.2.2.2.2.2.2.1 nodeA, h.2.2.2.2.2.2.2 nodeA⟩

/-- Claim C7: for the debounced notifier, `setProps` stores the new props
immediately; a timer is armed only when none is pending
(`this.emitTimeout ??= setTimeout(...)`) and a pending timer is neither reset
nor re-armed; in particular two calls with delay 100 made 50 apart produce
exactly one `nodeUpdated` notification, firing 100 after the first call,
observing the second call's stored props. -/
theorem claim_C7 :
    (∀ (s : EventNodeState) (now props delay : Nat),
      (setProps s now props delay).nodeProps = props) ∧
    (∀ (s : EventNodeState) (now props delay : Nat),
      (fireDue s now).emitTimeout = none →
        (setProps s now props delay).emitTimeout = some (now + delay)) ∧
    (∀ (s : EventNodeState) (now props delay d : Nat),
      (fireDue s now).emitTimeout = some d →
        (setProps s now props delay).emitTimeout = some d) ∧
    (∀ p0 p1 p2 t0 : Nat,
      drainTimer (runSetProps ⟨p0, none, []⟩ [(t0, p1, 100), (t0 + 50, p2, 100)]) =
        ⟨p2, none, [(t0 + 100, p2)]⟩) := by
  refine ⟨?_, ?_, ?_, ?_⟩
  · intro s now props delay
    unfold setProps
    dsimp only
    cases h : (fireDue s now).emitTimeout <;> rfl
  · intro s now props delay h
    unfold setProps
    dsimp only
    rw [h]
  · intro s now props delay d h
    unfold setProps
    dsimp only
    rw [h]
  · intro p0 p1 p2 t0
    show drainTimer (setProps (setProps ⟨p0, none, []⟩ t0 p1 100) (t0 + 50) p2 100) = _
    have h1 : setProps ⟨p0, none, []⟩ t0 p1 100 =
        ⟨p1, some (t0 + 100), []⟩ := rfl
    rw [h1]
    have h2 : setProps ⟨p1, some (t0 + 100), []⟩ (t0 + 50) p2 100 =
        ⟨p2, some (t0 + 100), []⟩ := by
      unfold setProps fireDue
      dsimp only
      rw [if_neg (by omega)]
    rw [h2]
    rfl

/-- Witness for C7 at concrete times and props. -/
theorem claim_C7_witness :
    (setProps ⟨0, none, []⟩ 5 7 100).nodeProps = 7 ∧
    (fireDue ⟨0, none, []⟩ 5).emitTimeout = none ∧
    (setProps ⟨0, none, []⟩ 5 7 100).emitTimeout = some 105 ∧
    (fireDue ⟨0, some 200, []⟩ 5).emitTimeout = some 200 ∧
    (setProps ⟨0, some 200, []⟩ 5 7 100).emitTimeout = some 200 ∧
    drainTimer (runSetProps ⟨0, none, []⟩ [(3, 1, 100), (3 + 50, 2, 100)]) =
      ⟨2, none, [(3 + 100, 2)]⟩ :=
  ⟨claim_C7.1 ⟨0, none, []⟩ 5 7 100, by decide,
   claim_C7.2.1 ⟨0, none, []⟩ 5 7 100 (by decide), by decide,
   claim_C7.2.2.1 ⟨0, some 200, []⟩ 5 7 100 200 (by decide),
   claim_C7.2.2.2 0 1 2 3⟩

/-- Claim C8: `getEdgeStructure(n)` terminates on every finite graph — cycles
such as `a → b → c → a` included — as soon as the fuel exceeds the number of
distinct node objects mentioned in the adjacency indices; the resulting tree is
rooted at n's id, every proper descendant entry comes from a node object other
than n, and hence, when no other mentioned object shares n's id, n never occurs
as its own descendant beyond the root. -/
theorem claim_C8 (g : GState) (n : Node) (fuel : Nat)
    (hfuel : (mentionedNodes g).toFinset.card + 1 ≤ fuel) :
    ∃ t seen', getEdgeStructure g fuel n = some (t, seen') ∧ t.id = n.nodeId ∧
      (∀ s ∈ properIds t, ∃ c : Node, c.nodeId = s ∧ c ≠ n ∧ c ∈ mentionedNodes g) ∧
      ((∀ c ∈ mentionedNodes g, c.nodeId = n.nodeId → c = n) →
        n.nodeId ∉ properIds t) := by
  have htot : (handleEdgeStructure g fuel n []).isSome = true := by
    apply edgeStructAux_total g (mentionedNodes g).toFinset
      (fun x c hc => List.mem_toFinset.mpr (mem_mentionedNodes_of_targets hc))
      (fun x c hc => List.mem_toFinset.mpr (mem_mentionedNodes_of_sources hc))
      fuel n []
    omega
  obtain ⟨r, hr⟩ := Option.isSome_iff_exists.mp htot
  obtain ⟨t, seen'⟩ := r
  obtain ⟨hid, hwit⟩ := edgeStructAux_ids g fuel n [] t seen' hr
  refine ⟨t, seen', hr, hid, ?_, ?_⟩
  · intro s hs
    obtain ⟨c, hc1, hc2, hc3⟩ := hwit s hs
    refine ⟨c, hc1, ?_, hc3⟩
    intro he
    rw [he] at hc2
    exact hc2 (mem_setAdd.mpr (Or.inr rfl))
  · intro huniq hmem
    obtain ⟨c, hc1, hc2, hc3⟩ := hwit _ hmem
    have hcn : c = n := huniq c hc3 hc1
    rw [hcn] at hc2
    exact hc2 (mem_setAdd.mpr (Or.inr rfl))

/-- Witness for C8 on the 3-cycle `a → b → c → a` with fuel 7. -/
theorem claim_C8_witness :
    (mentionedNodes gCycle).toFinset.card + 1 ≤ 7 ∧
    (∃ t seen', getEdgeStructure gCycle 7 nodeA = some (t, seen') ∧
      t.id = nodeA.nodeId ∧
      (∀ s ∈ properIds t,
        ∃ c : Node, c.nodeId = s ∧ c ≠ nodeA ∧ c ∈ mentionedNodes gCycle) ∧
      ((∀ c ∈ mentionedNodes gCycle, c.nodeId = nodeA.nodeId → c = nodeA) →
        nodeA.nodeId ∉ properIds t)) :=
  ⟨by decide, claim_C8 gCycle nodeA 7 (by decide)⟩

/-- Claim C9 counterexample: in the reachable state `gStale` (the id "a" was
de-registered through a different object, leaving nodeA's edge stale),
`removeNode(nodeA)` returns false yet still removes the stale edge `a → b` from
the adjacency indices and emits events. -/
theorem claim_C9_counterexample :
    (removeNode gStale nodeA true).1 = false ∧
    (removeNode gStale nodeA true).2.2 ≠ [] ∧
    (removeNode gStale nodeA true).2.1.targetLinkIndex ≠ gStale.targetLinkIndex := by
  decide

/-- Claim C9 (amended): in a state whose registered nodes all have a type
bucket, a false-returning `addNode`, `addEdge` or `removeEdge` leaves the whole
state unchanged and emits nothing; a false-returning `removeNode` still leaves
the registry and listener registry unchanged and emits no `nodeUpdate` or
`nodeRemove` — but it may mutate the adjacency indices and emit
`edgeRemove`/`graphUpdate` events for stale edges. -/
theorem claim_C9 (g : GState) (hty : TypeInv g) :
    (∀ n b, (addNode g n b).1 = false →
      (addNode g n b).2.1 = g ∧ (addNode g n b).2.2 = []) ∧
    (∀ s t b, (addEdge g s t b).1 = false →
      (addEdge g s t b).2.1 = g ∧ (addEdge g s t b).2.2 = []) ∧
    (∀ s t b, (removeEdge g s t b).1 = false →
      (removeEdge g s t b).2.1 = g ∧ (removeEdge g s t b).2.2 = []) ∧
    (∀ n b, SetsNodup g.sourceLinkIndex → SetsNodup g.targetLinkIndex →
      (removeNode g n b).1 = false →
      (removeNode g n b).2.1.nodes = g.nodes ∧
      (removeNode g n b).2.1.eventCallbacks = g.eventCallbacks ∧
      ∀ e ∈ (removeNode g n b).2.2,
        (∃ a c, e = GEvent.edgeRemove a c) ∨ e = GEvent.graphUpdate) := by
  refine ⟨?_, ?_, ?_, ?_⟩
  · intro n b hf
    have hfst : (addNode g n b).1 = decide (¬ alistGet g.nodes n.nodeId = some n) :=
      handleAddNode_fst g n b
    rw [hf] at hfst
    have hreg : alistGet g.nodes n.nodeId = some n := by
      have h' := hfst.symm
      rw [decide_eq_false_iff_not, not_not] at h'
      exact h'
    have heq : handleAddNode g n b = (false, g, []) :=
      handleAddNode_false g n b hreg (hty _ (alistGet_mem hreg))
    constructor
    · show (handleAddNode g n b).2.1 = g
      rw [heq]
    · show (handleAddNode g n b).2.2 = []
      rw [heq]
  · intro s t b hf
    unfold addEdge at hf ⊢
    dsimp only at hf ⊢
    split at hf
    · exact absurd hf (by simp)
    · rename_i hAdd
      rw [if_neg hAdd]
      simp only [Bool.or_eq_true, not_or] at hAdd
      obtain ⟨⟨⟨h1, h2⟩, h3⟩, h4⟩ := hAdd
      have hs1 : alistGet g.nodes s.nodeId = some s := by
        have hfst : (addNode g s b).1 = decide (¬ alistGet g.nodes s.nodeId = some s) :=
          handleAddNode_fst g s b
        rw [hfst, decide_eq_true_eq, not_not] at h1
        exact h1
      have ha1 : addNode g s b = (false, g, []) :=
        handleAddNode_false g s b hs1 (hty _ (alistGet_mem hs1))
      rw [ha1] at h2 h3 h4 ⊢
      dsimp only at h2 h3 h4 ⊢
      have hs2 : alistGet g.nodes t.nodeId = some t := by
        have hfst : (addNode g t b).1 = decide (¬ alistGet g.nodes t.nodeId = some t) :=
          handleAddNode_fst g t b
        rw [hfst, decide_eq_true_eq, not_not] at h2
        exact h2
      have ha2 : addNode g t b = (false, g, []) :=
        handleAddNode_false g t b hs2 (hty _ (alistGet_mem hs2))
      rw [ha2] at h3 h4 ⊢
      dsimp only at h3 h4 ⊢
      have h3' : (addSourceLink g s t).1 = false := by
        cases hx : (addSourceLink g s t).1
        · rfl
        · exact absurd hx h3
      have ha3 : (addSourceLink g s t).2 = g := addSourceLink_snd_of_not_fst h3'
      rw [ha3] at h4 ⊢
      have h4' : (addTargetLink g s t).1 = false := by
        cases hx : (addTargetLink g s t).1
        · rfl
        · exact absurd hx h4
      have ha4 : (addTargetLink g s t).2 = g := addTargetLink_snd_of_not_fst h4'
      rw [ha4]
      exact ⟨rfl, rfl⟩
  · intro s t b hf
    exact removeEdge_of_not_fst hf
  · intro n b hsn htn hf
    unfold removeNode at hf ⊢
    obtain ⟨s1, s2, s3, s4, s5, s6, s7, s8, s9⟩ := handleRemoveNode_spec g n true b hsn htn
    have hnone : ¬ (alistGet g.nodes n.nodeId).isSome = true := by
      rw [s1] at hf
      rw [hf]
      simp
    refine ⟨?_, ?_, ?_⟩
    · rw [s6, if_neg hnone]
    · rw [s8, if_neg hnone]
    · intro e he
      rw [s9, if_neg hnone, List.append_nil] at he
      rcases List.mem_append.mp he with h | h
      · obtain ⟨x, hx, hmem⟩ := List.mem_flatMap.mp h
        rcases List.mem_cons.mp hmem with h' | h'
        · exact Or.inl ⟨x, n, h'⟩
        · rcases List.mem_cons.mp h' with h'' | h''
          · exact Or.inr h''
          · exact absurd h'' (List.not_mem_nil e)
      · obtain ⟨x, hx, hmem⟩ := List.mem_flatMap.mp h
        rcases List.mem_cons.mp hmem with h' | h'
        · exact Or.inl ⟨n, x, h'⟩
        · rcases List.mem_cons.mp h' with h'' | h''
          · exact Or.inr h''
          · exact absurd h'' (List.not_mem_nil e)

/-- Witness for C9 on the state `a → b`: a same-object `addNode`, an existing
`addEdge`, a missing `removeEdge` and a missing-id `removeNode` all report
false and leave what the amended claim says untouched. -/
theorem claim_C9_witness :
    TypeInv gAB ∧
    ((addNode gAB nodeA true).2.1 = gAB ∧ (addNode gAB nodeA true).2.2 = []) ∧
    ((addEdge gAB nodeA nodeB true).2.1 = gAB ∧ (addEdge gAB nodeA nodeB true).2.2 = []) ∧
    ((removeEdge gAB nodeB nodeA true).2.1 = gAB ∧
      (removeEdge gAB nodeB nodeA true).2.2 = []) ∧
    (removeNode gAB nodeC true).2.1.nodes = gAB.nodes := by
  have h := claim_C9 gAB (by unfold TypeInv; decide)
  exact ⟨by unfold TypeInv; decide, h.1 nodeA true (by decide),
    h.2.1 nodeA nodeB true (by decide), h.2.2.1 nodeB nodeA true (by decide),
    (h.2.2.2 nodeC true (by unfold SetsNodup; decide) (by unfold SetsNodup; decide)
      (by decide)).1⟩

/-- Claim C10 counterexample: `nodeA2` has no self-edge in `gAB`, and
`addEdge(nodeA2, nodeA2)` returns true, yet `getSourceEdgeCount()` is NOT
incremented: registering `nodeA2` first tears down the old object `nodeA`
sharing its id, which removes the existing edge `a → b`. -/
theorem claim_C10_counterexample :
    nodeA2 ∉ getTargets gAB nodeA2 ∧ nodeA2 ∉ getSources gAB nodeA2 ∧
    (addEdge gAB nodeA2 nodeA2 true).1 = true ∧
    getSourceEdgeCount gAB = 1 ∧
    getSourceEdgeCount (addEdge gAB nodeA2 nodeA2 true).2.1 = 1 := by
  decide

set_option maxHeartbeats 1000000 in
/-- Claim C10 (amended): when `n`'s id is unregistered or registered to `n`
itself (so no replacement teardown is triggered) and `n` has no self-edge,
`addEdge(n, n)` returns true, records `n` in both its own adjacency sets, and
increments both edge counts by exactly one; a subsequent `removeNode(n)`
returns true and empties both of n's adjacency sets. -/
theorem claim_C10 (g : GState) (n : Node) (b : Bool)
    (hreg : alistGet g.nodes n.nodeId = none ∨ alistGet g.nodes n.nodeId = some n)
    (hty : TypeInv g)
    (hsn : SetsNodup g.sourceLinkIndex) (htn : SetsNodup g.targetLinkIndex)
    (hselfT : n ∉ getTargets g n) (hselfS : n ∉ getSources g n) :
    (addEdge g n n b).1 = true ∧
    n ∈ getTargets (addEdge g n n b).2.1 n ∧
    n ∈ getSources (addEdge g n n b).2.1 n ∧
    getSourceEdgeCount (addEdge g n n b).2.1 = getSourceEdgeCount g + 1 ∧
    getTargetEdgeCount (addEdge g n n b).2.1 = getTargetEdgeCount g + 1 ∧
    (removeNode (addEdge g n n b).2.1 n true).1 = true ∧
    getTargets (removeNode (addEdge g n n b).2.1 n true).2.1 n = [] ∧
    getSources (removeNode (addEdge g n n b).2.1 n true).2.1 n = [] := by
  have hga : (addNode g n b).2.1.sourceLinkIndex = g.sourceLinkIndex ∧
      (addNode g n b).2.1.targetLinkIndex = g.targetLinkIndex ∧
      alistGet (addNode g n b).2.1.nodes n.nodeId = some n := by
    rcases hreg with hN | hS
    · obtain ⟨w1, w2, w3, w4, w5⟩ := handleAddNode_fresh_spec g n b hN
      refine ⟨w2, w3, ?_⟩
      show alistGet (handleAddNode g n b).2.1.nodes n.nodeId = some n
      rw [w4, alistGet_alistSet_self]
    · have heq : addNode g n b = (false, g, []) :=
        handleAddNode_false g n b hS (hty _ (alistGet_mem hS))
      rw [heq]
      exact ⟨rfl, rfl, hS⟩
  obtain ⟨hga1, hga2, hga3⟩ := hga
  have ha2 : addNode (addNode g n b).2.1 n b = (false, (addNode g n b).2.1, []) :=
    handleAddNode_false _ n b hga3 (handleAddNode_bucket g n b)
  have hgs1 : getSources (addNode g n b).2.1 n = getSources g n := by
    unfold getSources
    rw [hga1]
  have hgt1 : getTargets (addNode g n b).2.1 n = getTargets g n := by
    unfold getTargets
    rw [hga2]
  have ha3fst : (addSourceLink (addNode g n b).2.1 n n).1 = true := by
    rw [addSourceLink_fst, hgs1]
    simp [hselfS]
  have ha4fst : (addTargetLink (addSourceLink (addNode g n b).2.1 n n).2 n n).1 = true := by
    rw [addTargetLink_fst, getTargets_addSourceLink, hgt1]
    simp [hselfT]
  have m1 : n ∈ getTargets (addTargetLink (addSourceLink (addNode g n b).2.1 n n).2 n n).2 n :=
    (mem_getTargets_addTargetLink _ n n n n).mpr (Or.inr ⟨rfl, rfl⟩)
  have m2 : n ∈ getSources (addTargetLink (addSourceLink (addNode g n b).2.1 n n).2 n n).2 n := by
    rw [getSources_addTargetLink]
    exact (mem_getSources_addSourceLink _ n n n n).mpr (Or.inr ⟨rfl, rfl⟩)
  have e1 : getSourceEdgeCount (addTargetLink (addSourceLink (addNode g n b).2.1 n n).2 n n).2
      = getSourceEdgeCount g + 1 := by
    rw [getSourceEdgeCount_eq, (addTargetLink_rest _ _ _).1, ← getSourceEdgeCount_eq,
      getSourceEdgeCount_addSourceLink, ha3fst, if_pos rfl,
      getSourceEdgeCount_eq, hga1, ← getSourceEdgeCount_eq]
  have e2 : getTargetEdgeCount (addTargetLink (addSourceLink (addNode g n b).2.1 n n).2 n n).2
      = getTargetEdgeCount g + 1 := by
    rw [getTargetEdgeCount_addTargetLink, ha4fst, if_pos rfl,
      getTargetEdgeCount_eq, (addSourceLink_rest _ _ _).1, hga2, ← getTargetEdgeCount_eq]
  have hsn1 : SetsNodup (addNode g n b).2.1.sourceLinkIndex := by
    rw [hga1]
    exact hsn
  have htn1 : SetsNodup (addNode g n b).2.1.targetLinkIndex := by
    rw [hga2]
    exact htn
  have hsn3 : SetsNodup (addSourceLink (addNode g n b).2.1 n n).2.sourceLinkIndex :=
    setsNodup_addSourceLink hsn1
  have htn3 : SetsNodup (addSourceLink (addNode g n b).2.1 n n).2.targetLinkIndex := by
    rw [(addSourceLink_rest _ _ _).1]
    exact htn1
  have hsn4 : SetsNodup
      (addTargetLink (addSourceLink (addNode g n b).2.1 n n).2 n n).2.sourceLinkIndex := by
    rw [(addTargetLink_rest _ _ _).1]
    exact hsn3
  have htn4 : SetsNodup
      (addTargetLink (addSourceLink (addNode g n b).2.1 n n).2 n n).2.targetLinkIndex :=
    setsNodup_addTargetLink htn3
  obtain ⟨t1, t2, t3, t4, t5, t6, t7, t8, t9⟩ :=
    handleRemoveNode_spec (addTargetLink (addSourceLink (addNode g n b).2.1 n n).2 n n).2
      n true true hsn4 htn4
  have hnod : alistGet
      (addTargetLink (addSourceLink (addNode g n b).2.1 n n).2 n n).2.nodes n.nodeId
      = some n := by
    rw [(addTargetLink_rest _ _ _).2.2.1, (addSourceLink_rest _ _ _).2.2.1]
    exact hga3
  have rn1 : (handleRemoveNode
      (addTargetLink (addSourceLink (addNode g n b).2.1 n n).2 n n).2 n true true).1 = true := by
    rw [t1, hnod]
    rfl
  unfold addEdge
  dsimp only
  rw [ha2]
  dsimp only
  split <;> rename_i hAdd
  · exact ⟨rfl, m1, m2, e1, e2, rn1, t3, t2⟩
  · exfalso
    rw [ha3fst, ha4fst] at hAdd
    exact hAdd (by simp)

/-- Witness for C10: a fresh self-loop on the empty graph. -/
theorem claim_C10_witness :
    (alistGet emptyGraph.nodes nodeA.nodeId = none ∨
      alistGet emptyGraph.nodes nodeA.nodeId = some nodeA) ∧
    (addEdge emptyGraph nodeA nodeA true).1 = true ∧
    nodeA ∈ getTargets (addEdge emptyGraph nodeA nodeA true).2.1 nodeA ∧
    nodeA ∈ getSources (addEdge emptyGraph nodeA nodeA true).2.1 nodeA ∧
    getSourceEdgeCount (addEdge emptyGraph nodeA nodeA true).2.1 =
      getSourceEdgeCount emptyGraph + 1 ∧
    getTargetEdgeCount (addEdge emptyGraph nodeA nodeA true).2.1 =
      getTargetEdgeCount emptyGraph + 1 ∧
    (removeNode (addEdge emptyGraph nodeA nodeA true).2.1 nodeA true).1 = true ∧
    getTargets (removeNode (addEdge emptyGraph nodeA nodeA true).2.1 nodeA true).2.1 nodeA
      = [] ∧
    getSources (removeNode (addEdge emptyGraph nodeA nodeA true).2.1 nodeA true).2.1 nodeA
      = [] := by
  have h := claim_C10 emptyGraph nodeA true (Or.inl rfl) (by unfold TypeInv; decide)
    (by unfold SetsNodup; decide) (by unfold SetsNodup; decide) (by decide) (by decide)
  exact ⟨Or.inl rfl, h.1, h.2.1, h.2.2.1, h.2.2.2.1, h.2.2.2.2.1, h.2.2.2.2.2.1,
    h.2.2.2.2.2.2.1, h.2.2.2.2.2.2.2⟩

end GraphEntity
